import Mathlib

/-!
Verification of the fixed-point matrix-capture parser and error-analysis
engine of the `cal-mimo-building-blocks` repository.

The development shallowly embeds the two `error_checker.py` scripts
(`3_systolic_cordic_fixedpoint` — the "square" relative-error variant — and
`5_..._rectangualr_matrices` — the "rectangular" absolute-error variant) and
the fixed-point constant generator
(`generate_qrd_fixedpoint_constants.py`).

Strings are embedded as `List Char`; Python string primitives
(`find`, `rfind`, slicing with negative indices, `split()`, `int(...)`) are
modelled exactly, including `find` returning `-1` when absent and Python's
negative-index normalisation.  Machine reals are embedded as `ℚ`: every
number actually manipulated by the scripts is a dyadic rational (integers
divided by powers of two), on which binary floating point is exact for the
magnitudes involved.  Fallible Python operations (`int()` on a malformed
token, out-of-range indexing, numpy shape errors) are modelled in
`Except PyError`.
-/

/-- Failure modes of the embedded scripts.  `valueError` models Python's
`ValueError` (malformed `int()` input, numpy shape mismatches),
`indexError` models `IndexError` (e.g. `content[-1]` on an empty file).
`missingMatrix i kind` is the `MissingMatrixError` that the specification
describes; it appears in this type so that statements about it can be
formed, but — faithfully to the source, which defines no such exception —
no embedded operation ever produces it. -/
inductive PyError where
  | valueError : PyError
  | indexError : PyError
  | missingMatrix : ℕ → Char → PyError
deriving DecidableEq

/-- First index of the character `c` in a character list, if any. -/
def findIdxOpt (c : Char) : List Char → Option ℕ
  | [] => none
  | x :: xs => if x = c then some 0 else (findIdxOpt c xs).map (· + 1)

/-- Python `s.find(c)` for a single-character needle: the first index of
`c` in `s`, or `-1` when `c` does not occur. -/
def pyFind (s : List Char) (c : Char) : ℤ :=
  (findIdxOpt c s).elim (-1) (fun k => (k : ℤ))

/-- Last index of the character `c` in a character list, if any. -/
def lastIdxOpt (c : Char) : List Char → Option ℕ
  | [] => none
  | x :: xs =>
    match lastIdxOpt c xs with
    | some k => some (k + 1)
    | none => if x = c then some 0 else none

/-- Python `s.rfind(c)`: the last index of `c` in `s`, or `-1`. -/
def pyRFind (s : List Char) (c : Char) : ℤ :=
  (lastIdxOpt c s).elim (-1) (fun k => (k : ℤ))

/-- Normalise a Python slice endpoint for a sequence of length `len`:
negative endpoints count from the end, and the result is clamped to
`[0, len]`. -/
def pySliceIdx (len : ℕ) (i : ℤ) : ℕ :=
  (max 0 (min (len : ℤ) (if i < 0 then i + len else i))).toNat

/-- Python `s[a:b]` (step 1), with Python's negative-index and clamping
semantics. -/
def pySlice (s : List Char) (a b : ℤ) : List Char :=
  let a' := pySliceIdx s.length a
  let b' := pySliceIdx s.length b
  (s.drop a').take (b' - a')

/-- Python `s[i]`: single-character indexing, `IndexError` out of range. -/
def pyIndexE (s : List Char) (i : ℤ) : Except PyError Char :=
  let j := if i < 0 then i + s.length else i
  if 0 ≤ j ∧ j < s.length then .ok (s.getD j.toNat ' ') else .error .indexError

/-- Whitespace for Python `str.split()` (the characters that can occur in
the capture files). -/
def isSpaceChar (c : Char) : Bool :=
  c == ' ' || c == '\n' || c == '\t' || c == '\r'

/-- Worker for `pySplitWs`; the accumulator holds the current token
reversed. -/
def pySplitWsAux : List Char → List Char → List (List Char)
  | [], acc => if acc.isEmpty then [] else [acc.reverse]
  | c :: rest, acc =>
    if isSpaceChar c then
      if acc.isEmpty then pySplitWsAux rest []
      else acc.reverse :: pySplitWsAux rest []
    else pySplitWsAux rest (c :: acc)

/-- Python `s.split()`: split on runs of whitespace, dropping empty
tokens. -/
def pySplitWs (s : List Char) : List (List Char) := pySplitWsAux s []

/-- Numeric value of a digit character. -/
def digitVal (c : Char) : ℕ := c.toNat - '0'.toNat

/-- Decimal value of a digit string (no validity check; callers check). -/
def parseNatRaw (s : List Char) : ℕ :=
  s.foldl (fun a c => a * 10 + digitVal c) 0

/-- Python `int(s)` for the token shapes occurring in capture files: an
optional leading minus sign followed by a nonempty digit string;
anything else raises `ValueError`.  (Python additionally strips
whitespace and accepts `+` and `_`; those shapes do not occur in the
captures and are not modelled.) -/
def pyIntE : List Char → Except PyError ℤ
  | [] => .error .valueError
  | c :: rest =>
    if c = '-' then
      if rest ≠ [] ∧ rest.all Char.isDigit then .ok (-(parseNatRaw rest : ℤ))
      else .error .valueError
    else
      if (c :: rest).all Char.isDigit then .ok ((parseNatRaw (c :: rest) : ℤ))
      else .error .valueError

/-- The decimal digit character for `d < 10` (and `'9'` above, unused). -/
def digitChar : ℕ → Char
  | 0 => '0' | 1 => '1' | 2 => '2' | 3 => '3' | 4 => '4'
  | 5 => '5' | 6 => '6' | 7 => '7' | 8 => '8' | _ => '9'

/-- Fuel-driven worker for `natDigits` (structural recursion on the fuel,
so that the kernel can evaluate it; the fuel is immaterial once it is at
least `k`, see `natDigitsF_mono`). -/
def natDigitsF : ℕ → ℕ → List Char
  | 0, k => [digitChar k]
  | f + 1, k =>
    if k < 10 then [digitChar k]
    else natDigitsF f (k / 10) ++ [digitChar (k % 10)]

/-- Canonical decimal rendering of a natural number, as the capture-file
producer writes instance indices. -/
def natDigits (k : ℕ) : List Char := natDigitsF k k

theorem natDigitsF_mono : ∀ (f1 : ℕ) (k f2 : ℕ), k ≤ f1 → k ≤ f2 →
    natDigitsF f1 k = natDigitsF f2 k := by
  intro f1
  induction f1 with
  | zero =>
    intro k f2 h1 _
    interval_cases k
    cases f2 <;> simp [natDigitsF]
  | succ f ih =>
    intro k f2 h1 h2
    by_cases hk : k < 10
    · cases f2 with
      | zero =>
        interval_cases k
        all_goals simp [natDigitsF]
      | succ f2' => simp [natDigitsF, hk]
    · have hf2 : ∃ f2', f2 = f2' + 1 := ⟨f2 - 1, by omega⟩
      obtain ⟨f2', rfl⟩ := hf2
      simp only [natDigitsF, if_neg hk]
      have hd : k / 10 < k := Nat.div_lt_self (by omega) (by omega)
      rw [ih (k / 10) f2' (by omega) (by omega)]

theorem natDigits_eq (k : ℕ) :
    natDigits k =
      if k < 10 then [digitChar k]
      else natDigits (k / 10) ++ [digitChar (k % 10)] := by
  show natDigitsF k k = _
  by_cases hk : k < 10
  · cases k with
    | zero => simp [natDigitsF]
    | succ f => simp [natDigitsF, hk]
  · have hk10 : ∃ f, k = f + 1 := ⟨k - 1, by omega⟩
    obtain ⟨f, rfl⟩ := hk10
    simp only [natDigitsF, if_neg hk]
    have hd : (f + 1) / 10 < f + 1 := Nat.div_lt_self (by omega) (by omega)
    rw [natDigitsF_mono f ((f + 1) / 10) ((f + 1) / 10) (by omega) (by omega)]
    rfl

theorem digitVal_digitChar {d : ℕ} (h : d < 10) : digitVal (digitChar d) = d := by
  interval_cases d <;> decide

theorem digitChar_isDigit {d : ℕ} (h : d < 10) : (digitChar d).isDigit = true := by
  interval_cases d <;> decide

theorem isDigit_ne_colon {c : Char} (h : c.isDigit = true) : c ≠ ':' := by
  intro h2
  rw [h2] at h
  exact absurd h (by decide)

theorem isDigit_ne_r {c : Char} (h : c.isDigit = true) : c ≠ 'r' := by
  intro h2
  rw [h2] at h
  exact absurd h (by decide)

theorem natDigits_ne_nil (k : ℕ) : natDigits k ≠ [] := by
  rw [natDigits_eq]
  split
  · simp
  · simp

theorem natDigits_all_digit (k : ℕ) : ∀ c ∈ natDigits k, c.isDigit = true := by
  induction k using Nat.strong_induction_on with
  | _ k ih =>
    rw [natDigits_eq]
    split
    · intro c hc
      simp only [List.mem_singleton] at hc
      subst hc
      exact digitChar_isDigit (by omega)
    · intro c hc
      simp only [List.mem_append, List.mem_singleton] at hc
      rcases hc with hc | hc
      · exact ih (k / 10) (by omega) c hc
      · subst hc
        exact digitChar_isDigit (by omega)

theorem foldl_digits (init : ℕ) (b : List Char) :
    b.foldl (fun a c => a * 10 + digitVal c) init =
      init * 10 ^ b.length + parseNatRaw b := by
  induction b generalizing init with
  | nil => simp [parseNatRaw]
  | cons c t ih =>
    simp only [List.foldl_cons, List.length_cons]
    rw [ih (init * 10 + digitVal c)]
    have hpr : parseNatRaw (c :: t) = digitVal c * 10 ^ t.length + parseNatRaw t := by
      show (c :: t).foldl (fun a c => a * 10 + digitVal c) 0 = _
      simp only [List.foldl_cons]
      rw [ih (0 * 10 + digitVal c)]
      ring_nf
    rw [hpr]
    ring

theorem parseNatRaw_append (a b : List Char) :
    parseNatRaw (a ++ b) = parseNatRaw a * 10 ^ b.length + parseNatRaw b := by
  show (a ++ b).foldl _ 0 = _
  rw [List.foldl_append, foldl_digits]
  rfl

theorem parseNatRaw_natDigits (k : ℕ) : parseNatRaw (natDigits k) = k := by
  induction k using Nat.strong_induction_on with
  | _ k ih =>
    rw [natDigits_eq]
    split
    · show parseNatRaw [digitChar k] = k
      show [digitChar k].foldl _ 0 = k
      simp [digitVal_digitChar (by omega : k < 10)]
    · rw [parseNatRaw_append, ih (k / 10) (by omega)]
      have h1 : parseNatRaw [digitChar (k % 10)] = k % 10 := by
        show [digitChar (k % 10)].foldl _ 0 = k % 10
        simp [digitVal_digitChar (Nat.mod_lt _ (by omega) : k % 10 < 10)]
      rw [h1]
      simp only [List.length_singleton, pow_one]
      omega

theorem natDigits_le_of_isPrefix {a b : ℕ}
    (h : List.IsPrefix (natDigits a) (natDigits b)) : a ≤ b := by
  obtain ⟨t, ht⟩ := h
  have hb := parseNatRaw_natDigits b
  rw [← ht, parseNatRaw_append, parseNatRaw_natDigits] at hb
  have hpow : 1 ≤ 10 ^ t.length := Nat.one_le_pow _ _ (by omega)
  nlinarith

theorem natDigits_inj {a b : ℕ} (h : natDigits a = natDigits b) : a = b := by
  have := parseNatRaw_natDigits a
  rw [h, parseNatRaw_natDigits] at this
  omega

/-! ### Matrices and the numpy operations used by the scripts

`np.array` of a list of rows, `np.matmul`, `np.abs`, `np.mean`, `np.max`,
elementwise arithmetic and boolean-mask assignment.  A matrix is a list of
rows.  `np.array` fails on ragged input (modern numpy raises `ValueError`
for inhomogeneous shapes); `np.matmul` fails on dimension mismatch.  The
1-d/0-d numpy corner cases that arise only from degenerate captures (both
operands empty, zero-column rows) are outside the modelled domain and are
mapped to errors / total defaults as noted at each definition. -/

/-- Effectful map over a list in `Except`, failing at the first failure —
the semantics of a Python list comprehension whose body may raise. -/
def mapME {α β : Type} (f : α → Except PyError β) : List α → Except PyError (List β)
  | [] => .ok []
  | x :: xs => do
    let y ← f x
    let ys ← mapME f xs
    .ok (y :: ys)

/-- Rows all have the length of the first row. -/
def uniformRows (M : List (List ℚ)) : Bool :=
  M.all (fun r => r.length == (M.headD []).length)

/-- `np.array(rows)`: fails on ragged (inhomogeneous) input. -/
def npArrayE (rows : List (List ℚ)) : Except PyError (List (List ℚ)) :=
  if uniformRows rows then .ok rows else .error .valueError

/-- All entries of a matrix, row-major (numpy's flat order). -/
def matFlatten (M : List (List ℚ)) : List ℚ := M.flatten

/-- `np.mean` of a 1-d collection: sum divided by length (the scripts only
apply it to nonempty data; on `[]` numpy would produce `nan`, which has no
rational counterpart — the result `0/0 = 0` here is outside the modelled
domain). -/
def npMeanL (l : List ℚ) : ℚ := l.sum / l.length

/-- `np.max` of a 1-d collection (the scripts only apply it to nonempty
data; numpy raises on `[]`, which callers of this definition exclude). -/
def npMaxL (l : List ℚ) : ℚ := l.foldl max (l.headD 0)

/-- `np.abs` of a matrix. -/
def matAbs (M : List (List ℚ)) : List (List ℚ) :=
  M.map (fun r => r.map (fun v => |v|))

/-- `np.mean(np.abs(M))` over all entries of a 2-d array. -/
def npMeanAbsM (M : List (List ℚ)) : ℚ := npMeanL (matFlatten (matAbs M))

/-- `np.max` over all entries of a 2-d array. -/
def npMaxM (M : List (List ℚ)) : ℚ := npMaxL (matFlatten M)

/-- `np.mean` over all entries of a 2-d array. -/
def npMeanM (M : List (List ℚ)) : ℚ := npMeanL (matFlatten M)

/-- Entry `(i, j)` of a matrix (0 outside the matrix). -/
def matEntry (M : List (List ℚ)) (i j : ℕ) : ℚ := (M.getD i []).getD j 0

/-- Row `i` of `B` paired against a row vector: the dot product of `row`
with column `j` of `B`, summing over the common length. -/
def dotCol (row : List ℚ) (B : List (List ℚ)) (j : ℕ) : ℚ :=
  (List.zipWith (fun a brow => a * brow.getD j 0) row B).sum

/-- `np.matmul(A, B)` for the 2-d list-of-rows matrices produced by
`np.array` in the scripts: requires both operands nonempty and uniform with
`cols A = rows B`, else `ValueError`.  An empty operand is numpy's 1-d
empty array, whose multiplication against a nonempty 2-d array is a
dimension mismatch (`ValueError`); the degenerate empty–empty scalar case
is also mapped to the error. -/
def matmulE (A B : List (List ℚ)) : Except PyError (List (List ℚ)) :=
  if A = [] ∨ B = [] then .error .valueError
  else if ¬ (uniformRows A ∧ uniformRows B) then .error .valueError
  else if (A.headD []).length ≠ B.length then .error .valueError
  else .ok (A.map (fun row => (List.range (B.headD []).length).map (dotCol row B)))

/-- Boolean-mask assignment `M[np.abs(M) < near0] = near0`: every entry of
absolute value below `near0` is replaced by `near0`. -/
def clampMat (near0 : ℚ) (M : List (List ℚ)) : List (List ℚ)  :=
  M.map (fun row => row.map (fun v => if |v| < near0 then near0 else v))

/-- Shapes agree exactly (numpy broadcasting of unequal shapes does not
arise for the well-shaped matrices of a capture and is not modelled). -/
def sameShape (A B : List (List ℚ)) : Bool :=
  A.length == B.length &&
    (List.zipWith (fun r s => r.length == s.length) A B).all id

/-- `np.abs((A - B) / A)` elementwise, the relative-error matrix of the
square-variant script, in the exact-rational model.  `ℚ` division by zero
is `0`, whereas numpy produces `nan` (for `0.0 / 0.0`) or a signed
infinity; this definition is therefore faithful only where every
denominator is nonzero, which the theorems stated over it guarantee by
hypothesis (a not-all-zero reconstruction makes every clamped denominator
at least `near0 > 0`).  `elemErrRelFE` below models the `nan`/`inf` path
itself for instances outside that domain. -/
def elemErrRelE (A B : List (List ℚ)) : Except PyError (List (List ℚ)) :=
  if sameShape A B then
    .ok (List.zipWith (List.zipWith (fun a b => |(a - b) / a|)) A B)
  else .error .valueError

/-- `np.abs(A - B)` elementwise, the absolute-error matrix of the
rectangular-variant script. -/
def elemErrAbsE (A B : List (List ℚ)) : Except PyError (List (List ℚ)) :=
  if sameShape A B then
    .ok (List.zipWith (List.zipWith (fun a b => |a - b|)) A B)
  else .error .valueError

/-! ### The square-variant checker
(`3_systolic_cordic_fixedpoint/scripts/error_checker.py`) -/

/-- Decode one integer token of a capture line: `int(x) * (2 ** -n)`.
`2 ** -n` is a power of two, on which binary floating point is exact, so
the rational value is the exact value the script computes. -/
def decodeTok (n : ℕ) (tok : List Char) : Except PyError ℚ :=
  (pyIntE tok).map (fun v => (v : ℚ) * ((2 : ℚ) ^ n)⁻¹)

/-- Decode one capture line into a row of rationals:
`[int(x)*(2**-n) for x in line[line.rfind(":")+2:-2].split()]`. -/
def rowDecode (n : ℕ) (x : List Char) : Except PyError (List ℚ) :=
  mapME (decodeTok n) (pySplitWs (pySlice x (pyRFind x ':' + 2) (-2)))

/-- The pre-colon prefix of a line: `x[0:x.find(":")]` (when the line has
no colon this is `x[0:-1]`, exactly as in Python). -/
def tagOf (x : List Char) : List Char := pySlice x 0 (pyFind x ':')

/-- The tag `f"{kind}{i}"` (e.g. `"A0"`, `"R3"`). -/
def tagStr (kind : Char) (i : ℕ) : List Char := kind :: natDigits i

/-- All lines whose pre-colon prefix equals the tag, in file order:
`[x for x in content if x[0:x.find(":")] == f"{kind}{i}"]`. -/
def selectTag (t : List Char) (content : List (List Char)) : List (List Char) :=
  content.filter (fun x => tagOf x == t)

/-- Select and decode one matrix of one instance from the capture content
(steps 2.1–2.3 of the square script, `np.array` conversion included). -/
def getMatrixE (n : ℕ) (content : List (List Char)) (kind : Char) (i : ℕ) :
    Except PyError (List (List ℚ)) := do
  let rows ← mapME (rowDecode n) (selectTag (tagStr kind i) content)
  npArrayE rows

/-- Steps 3–4 of the square script on already-decoded matrices:
reconstruct `A = Q × R`, clamp both the reconstruction and the original
`A` at `near0 = np.mean(np.abs(A_reconstructed)) / 1000`, and form the
relative-error matrix with its max and mean.  Returns
`(A_clamped, A_reconstructed_clamped, errors, highest_error, mean_error)`
(the script prints the two clamped matrices, having mutated them in
place). -/
def squareCore (Anp Qnp Rnp : List (List ℚ)) :
    Except PyError
      (List (List ℚ) × List (List ℚ) × List (List ℚ) × ℚ × ℚ) := do
  let Arec ← matmulE Qnp Rnp
  let near0 := npMeanAbsM Arec / 1000
  let Arec' := clampMat near0 Arec
  let A' := clampMat near0 Anp
  let errors ← elemErrRelE A' Arec'
  .ok (A', Arec', errors, npMaxM errors, npMeanM errors)

/-- One item of the script's printed output (`print` / `pd.DataFrame`
renderings abstracted to their data). -/
inductive OutItem where
  | header : Char → ℕ → OutItem
  | matrixOut : List (List ℚ) → OutItem
  | numOut : ℚ → OutItem
  | pairOut : ℚ → ℚ → OutItem
deriving DecidableEq

/-- One iteration of the square script's loop for instance `i`: select and
decode `A`, `R`, `Q` (in the source's order), run the reconstruction and
error computation, and emit the iteration's printed output unless
`suppress` is set.  Returns `(highest_error, mean_error, trace)`. -/
def squareInstanceE (n : ℕ) (content : List (List Char)) (suppress : Bool)
    (i : ℕ) : Except PyError (ℚ × ℚ × List OutItem) := do
  let Anp ← getMatrixE n content 'A' i
  let Rnp ← getMatrixE n content 'R' i
  let Qnp ← getMatrixE n content 'Q' i
  let (A', Arec', errors, hi, me) ← squareCore Anp Qnp Rnp
  let tr : List OutItem :=
    if suppress then []
    else
      [.header 'R' i, .matrixOut Rnp, .header 'Q' i, .matrixOut Qnp,
       .header 'A' i, .matrixOut A', .header 'A' i, .matrixOut Arec',
       .matrixOut errors, .numOut hi]
  .ok (hi, me, tr)

/-- The square script's loop over instance indices, accumulating
`highest_errors`, `mean_errors` and the printed output. -/
def squareLoopE (n : ℕ) (content : List (List Char)) (suppress : Bool) :
    List ℕ → Except PyError (List ℚ × List ℚ × List OutItem)
  | [] => .ok ([], [], [])
  | i :: rest => do
    let (hi, me, tr) ← squareInstanceE n content suppress i
    let (hs, ms, trs) ← squareLoopE n content suppress rest
    .ok (hi :: hs, me :: ms, tr ++ trs)

/-- `num_arrays = int(content[-1][1:content[-1].find(":")]) + 1`
(`IndexError` on an empty file, `ValueError` on a malformed slice). -/
def numArraysE (content : List (List Char)) : Except PyError ℤ :=
  match content.getLast? with
  | none => .error .indexError
  | some last => (pyIntE (pySlice last 1 (pyFind last ':'))).map (· + 1)

set_option linter.unusedVariables false in
/-- `runErrorChecker(m, n, input_file_name, suppress)` of the square
variant, on the file's lines.  `m` is accepted (as in the source's
signature) but used nowhere in the body — exactly as in the source.  The
result pairs the returned `(np.max(highest_errors), np.mean(mean_errors))`
with the abstracted printed output.  An empty instance range means
`np.max([])`, which raises `ValueError`. -/
def runErrorCheckerSq (m : ℤ) (n : ℕ) (content : List (List Char))
    (suppress : Bool) : Except PyError ((ℚ × ℚ) × List OutItem) := do
  let na ← numArraysE content
  let (hs, ms, trs) ← squareLoopE n content suppress (List.range na.toNat)
  if hs.isEmpty then .error .valueError
  else
    let res := (npMaxL hs, npMeanL ms)
    .ok (res, trs ++ (if suppress then [] else [.pairOut res.1 res.2]))

/-! ### The fixed-point codec
(`generate_qrd_fixedpoint_constants.py`)

The generator computes `x_fp = int(x * (2 ** n))` for each constant `x`
and `x_actual = x_fp * (2.0 ** -n)`.  Python `int()` on a real truncates
toward zero.  The float literals and products involved are within the
range where the decimal rationals used here and the corresponding doubles
truncate to the same integer (the products are never within `10⁻⁹` of an
integer boundary). -/

/-- Python `int(x)` on a real number: truncation toward zero. -/
def pyTrunc (q : ℚ) : ℤ := if 0 ≤ q then ⌊q⌋ else ⌈q⌉

/-- The generator's encoding idiom `int(value * (2 ** n))`, as used for
`k_fp`, `increment_fp`, `lowerBoundary_P_fp` and `lowerBoundary_N_fp`. -/
def encode_fp (v : ℚ) (n : ℕ) : ℤ := pyTrunc (v * 2 ^ n)

/-- The decoding `raw * (2.0 ** -n)`, as used for `k_actual` etc. and by
the capture parsers. -/
def decode_fp (r : ℤ) (n : ℕ) : ℚ := (r : ℚ) * ((2 : ℚ) ^ n)⁻¹

/-- Wrapping of an integer to `w`-bit two's-complement.  Modelled from the
spec: §4.1 prescribes that encode wraps its result to `m+n`-bit
two's-complement; the generator source contains no such wrap, and this
definition exists to compare the two. -/
def wrapTwos (w : ℕ) (x : ℤ) : ℤ :=
  (x + 2 ^ (w - 1)) % 2 ^ w - 2 ^ (w - 1)

/-- Modelled from the spec: the `encode` contract of §4.1,
`round(value * 2^n)` wrapped to `m+n`-bit two's-complement, for comparison
with the source's `encode_fp`. -/
def encodeSpec (v : ℚ) (m n : ℕ) : ℤ := wrapTwos (m + n) (round (v * 2 ^ n))

/-- The CORDIC gain literal `k = 0.607252956441381` of the generator. -/
def kConst : ℚ := 607252956441381 / 10 ^ 15

/-- `k_fp = int(k * (2 ** n))`. -/
def k_fp (n : ℕ) : ℤ := encode_fp kConst n

/-- The `increment = 0.11` literal of the generator. -/
def incrementConst : ℚ := 11 / 100

/-- `increment_fp = int(increment * (2 ** n))`. -/
def increment_fp (n : ℕ) : ℤ := encode_fp incrementConst n

/-- The `lowerBoundary_P = 0.00005` literal of the generator. -/
def lowerBoundaryP : ℚ := 5 / 100000

/-- `lowerBoundary_P_fp = int(lowerBoundary_P * (2 ** n))`. -/
def lowerBoundary_P_fp (n : ℕ) : ℤ := encode_fp lowerBoundaryP n

theorem pyTrunc_close (q : ℚ) : |(pyTrunc q : ℚ) - q| < 1 := by
  rw [pyTrunc]
  split
  · rw [abs_lt]
    constructor
    · have h1 : q - 1 < (⌊q⌋ : ℚ) := Int.sub_one_lt_floor q
      linarith
    · have h2 : ((⌊q⌋ : ℚ)) ≤ q := Int.floor_le q
      linarith
  · rw [abs_lt]
    constructor
    · have h1 : q ≤ ((⌈q⌉ : ℚ)) := Int.le_ceil q
      linarith
    · have h2 : ((⌈q⌉ : ℚ)) < q + 1 := Int.ceil_lt_add_one q
      linarith

theorem pyTrunc_abs_le (q : ℚ) : |(pyTrunc q : ℚ)| ≤ |q| := by
  rw [pyTrunc]
  split
  · rename_i h
    rw [abs_of_nonneg h, abs_of_nonneg]
    · exact Int.floor_le q
    · exact_mod_cast Int.floor_nonneg.mpr h
  · rename_i h
    push_neg at h
    rw [abs_of_nonpos h.le, abs_of_nonpos]
    · have := Int.le_ceil q
      linarith
    · exact_mod_cast Int.ceil_le.mpr (by exact_mod_cast h.le : q ≤ ((0 : ℤ) : ℚ))

/-- C8, counterexample: at `v = increment = 0.11`, `n = 19` (a value the
generator actually encodes), the source's encoding `int(0.11 * 2**19)`
yields `57671`, while the claimed `round(0.11 * 2**19)` wrapped to
`3+19`-bit two's-complement yields `57672`; the two disagree. -/
theorem c8_counterexample :
    increment_fp 19 = 57671 ∧ encodeSpec incrementConst 3 19 = 57672 ∧
      (57671 : ℤ) ≠ 57672 := by
  refine ⟨?_, ?_, by decide⟩
  · show pyTrunc (11 / 100 * 2 ^ 19 : ℚ) = 57671
    rw [pyTrunc, if_pos (by norm_num)]
    rw [Int.floor_eq_iff]
    norm_num
  · show wrapTwos (3 + 19) (round (11 / 100 * 2 ^ 19 : ℚ)) = 57672
    rw [round_eq]
    rw [show ⌊(11 / 100 * 2 ^ 19 + 1 / 2 : ℚ)⌋ = 57672 by rw [Int.floor_eq_iff]; norm_num]
    decide

/-- C8, amended: the generator's encoding is `int(v * 2**n)`, i.e.
truncation toward zero — the unique integer within distance 1 of
`v * 2^n` whose magnitude does not exceed it — not `round`, and no
two's-complement wrap is applied (at `v = 100`, `n = 19`, `m = 3` the
encoding `52428800` lies far outside the 22-bit two's-complement range
and differs from its wrapped value). -/
theorem c8_amended_encode_truncates (v : ℚ) (n : ℕ) :
    encode_fp v n = pyTrunc (v * 2 ^ n) ∧
      |(encode_fp v n : ℚ) - v * 2 ^ n| < 1 ∧
      |(encode_fp v n : ℚ)| ≤ |v * 2 ^ n| ∧
      encode_fp 100 19 = 52428800 ∧
      wrapTwos 22 (encode_fp 100 19) ≠ encode_fp 100 19 := by
  have h100 : encode_fp 100 19 = 52428800 := by
    show pyTrunc (100 * 2 ^ 19 : ℚ) = 52428800
    rw [pyTrunc, if_pos (by norm_num),
      show (100 * 2 ^ 19 : ℚ) = ((52428800 : ℤ) : ℚ) by norm_num,
      Int.floor_intCast]
  refine ⟨rfl, pyTrunc_close (v * 2 ^ n), pyTrunc_abs_le (v * 2 ^ n), h100, ?_⟩
  rw [h100]
  decide

set_option linter.unusedVariables false in
/-- C9: for any value within the representable range of Qm.n, decoding the
encoding recovers it to within `2⁻ⁿ`: the fixed-point integer of `v`
multiplied by `2⁻ⁿ` is strictly within `2⁻ⁿ` of `v`.  (The generator
applies no wrap, so the proof needs no use of the range hypothesis; the
hypothesis delimits the claim's domain.) -/
theorem c9_codec_roundtrip (v : ℚ) (m n : ℕ)
    (hrange : |v| ≤ ((2 ^ (m + n - 1) - 1 : ℤ) : ℚ) * ((2 : ℚ) ^ n)⁻¹) :
    |decode_fp (encode_fp v n) n - v| < ((2 : ℚ) ^ n)⁻¹ := by
  have hp : (0 : ℚ) < (2 : ℚ) ^ n := by positivity
  have hinv : (0 : ℚ) < ((2 : ℚ) ^ n)⁻¹ := by positivity
  have key : decode_fp (encode_fp v n) n - v =
      ((pyTrunc (v * 2 ^ n) : ℚ) - v * 2 ^ n) * ((2 : ℚ) ^ n)⁻¹ := by
    rw [decode_fp, encode_fp]
    field_simp
    ring
  rw [key, abs_mul, abs_of_pos hinv]
  calc |(pyTrunc (v * 2 ^ n) : ℚ) - v * 2 ^ n| * ((2 : ℚ) ^ n)⁻¹
      < 1 * ((2 : ℚ) ^ n)⁻¹ :=
        mul_lt_mul_of_pos_right (pyTrunc_close (v * 2 ^ n)) hinv
    _ = ((2 : ℚ) ^ n)⁻¹ := one_mul _

/-- Witness for C9 at `v = 0.11`, `(m, n) = (3, 19)`. -/
theorem c9_codec_roundtrip_witness :
    |(11 / 100 : ℚ)| ≤ ((2 ^ (3 + 19 - 1) - 1 : ℤ) : ℚ) * ((2 : ℚ) ^ 19)⁻¹ ∧
      |decode_fp (encode_fp (11 / 100) 19) 19 - 11 / 100| < ((2 : ℚ) ^ 19)⁻¹ :=
  ⟨by rw [abs_of_nonneg (by norm_num : (0:ℚ) ≤ 11 / 100)]; norm_num,
   c9_codec_roundtrip (11 / 100) 3 19
     (by rw [abs_of_nonneg (by norm_num : (0:ℚ) ≤ 11 / 100)]; norm_num)⟩

theorem squareInstanceE_result (n : ℕ) (content : List (List Char))
    (s s' : Bool) (i : ℕ) :
    (squareInstanceE n content s i).map (fun t => (t.1, t.2.1)) =
      (squareInstanceE n content s' i).map (fun t => (t.1, t.2.1)) := by
  unfold squareInstanceE
  cases getMatrixE n content 'A' i with
  | error e => rfl
  | ok Anp =>
    cases getMatrixE n content 'R' i with
    | error e => rfl
    | ok Rnp =>
      cases getMatrixE n content 'Q' i with
      | error e => rfl
      | ok Qnp =>
        cases h4 : squareCore Anp Qnp Rnp with
        | error e =>
          show (Except.ok Anp >>= _ : Except PyError _).map _ = (Except.ok Anp >>= _ : Except PyError _).map _
          simp only [bind, Except.bind, h4]
        | ok t =>
          obtain ⟨A', Arec', errors, hi, me⟩ := t
          show (Except.ok Anp >>= _ : Except PyError _).map _ = (Except.ok Anp >>= _ : Except PyError _).map _
          simp only [bind, Except.bind, h4]
          rfl

theorem squareLoopE_result (n : ℕ) (content : List (List Char))
    (s s' : Bool) : ∀ l : List ℕ,
    (squareLoopE n content s l).map (fun t => (t.1, t.2.1)) =
      (squareLoopE n content s' l).map (fun t => (t.1, t.2.1)) := by
  intro l
  induction l with
  | nil => rfl
  | cons i rest ih =>
    have hi := squareInstanceE_result n content s s' i
    simp only [squareLoopE]
    cases h1 : squareInstanceE n content s i with
    | error e =>
      cases h2 : squareInstanceE n content s' i with
      | error e' =>
        rw [h1, h2] at hi
        simp only [Except.map] at hi
        cases hi
        rfl
      | ok t =>
        rw [h1, h2] at hi
        simp [Except.map] at hi
    | ok t =>
      cases h2 : squareInstanceE n content s' i with
      | error e' =>
        rw [h1, h2] at hi
        simp [Except.map] at hi
      | ok t' =>
        rw [h1, h2] at hi
        simp only [Except.map, Except.ok.injEq] at hi
        obtain ⟨hi1, me1, tr1⟩ := t
        obtain ⟨hi2, me2, tr2⟩ := t'
        simp only [Prod.mk.injEq] at hi
        obtain ⟨hA, hB⟩ := hi
        subst hA; subst hB
        cases h3 : squareLoopE n content s rest with
        | error e =>
          cases h4 : squareLoopE n content s' rest with
          | error e' =>
            rw [h3, h4] at ih
            simp only [Except.map] at ih
            cases ih
            rfl
          | ok u =>
            rw [h3, h4] at ih
            simp [Except.map] at ih
        | ok u =>
          cases h4 : squareLoopE n content s' rest with
          | error e' =>
            rw [h3, h4] at ih
            simp [Except.map] at ih
          | ok u' =>
            rw [h3, h4] at ih
            simp only [Except.map, Except.ok.injEq] at ih
            obtain ⟨hs1, ms1, trs1⟩ := u
            obtain ⟨hs2, ms2, trs2⟩ := u'
            simp only [Prod.mk.injEq] at ih
            obtain ⟨hU, hV⟩ := ih
            subst hU; subst hV
            rfl

/-- C10: the `(worst error, mean error)` pair returned by
`runErrorChecker` is identical across any two runs on the same capture
content and fractional-bit count `n` that differ only in the integer-bit
parameter `m` and/or the `suppress` flag: `m` occurs in no computation of
the function body, and `suppress` only gates the printed output. -/
theorem c10_result_independent_of_m_and_suppress
    (m m' : ℤ) (n : ℕ) (content : List (List Char)) (s s' : Bool) :
    (runErrorCheckerSq m n content s).map (fun r => r.1) =
      (runErrorCheckerSq m' n content s').map (fun r => r.1) := by
  simp only [runErrorCheckerSq]
  cases numArraysE content with
  | error e => rfl
  | ok na =>
    simp only [bind, Except.bind]
    have hl := squareLoopE_result n content s s' (List.range na.toNat)
    cases h1 : squareLoopE n content s (List.range na.toNat) with
    | error e =>
      cases h2 : squareLoopE n content s' (List.range na.toNat) with
      | error e' =>
        rw [h1, h2] at hl
        simp only [Except.map] at hl
        cases hl
        rfl
      | ok u =>
        rw [h1, h2] at hl
        simp [Except.map] at hl
    | ok u =>
      cases h2 : squareLoopE n content s' (List.range na.toNat) with
      | error e' =>
        rw [h1, h2] at hl
        simp [Except.map] at hl
      | ok u' =>
        rw [h1, h2] at hl
        simp only [Except.map, Except.ok.injEq] at hl
        obtain ⟨hs1, ms1, trs1⟩ := u
        obtain ⟨hs2, ms2, trs2⟩ := u'
        simp only [Prod.mk.injEq] at hl
        obtain ⟨hU, hV⟩ := hl
        subst hU; subst hV
        by_cases he : hs1 = []
        · simp [he]
        · have he2 : hs1.isEmpty = false := by
            cases hs1
            · exact absurd rfl he
            · rfl
          simp only [he2]
          rfl

/-! ### List and matrix facts about the numpy model -/

theorem foldl_max_bounds (l : List ℚ) :
    ∀ a : ℚ, a ≤ l.foldl max a ∧ ∀ x ∈ l, x ≤ l.foldl max a := by
  induction l with
  | nil => simp
  | cons h t ih =>
    intro a
    constructor
    · calc a ≤ max a h := le_max_left _ _
        _ ≤ t.foldl max (max a h) := (ih (max a h)).1
    · intro x hx
      rcases List.mem_cons.mp hx with hx | hx
      · subst hx
        calc x ≤ max a x := le_max_right _ _
          _ ≤ t.foldl max (max a x) := (ih (max a x)).1
      · exact (ih (max a h)).2 x hx

theorem foldl_max_cases (l : List ℚ) :
    ∀ a : ℚ, l.foldl max a = a ∨ l.foldl max a ∈ l := by
  induction l with
  | nil => simp
  | cons h t ih =>
    intro a
    rcases ih (max a h) with hc | hc
    · rcases max_choice a h with hm | hm
      · left
        simpa [hm] using hc
      · right
        rw [List.foldl_cons, hc, hm]
        exact List.mem_cons_self _ _
    · right
      exact List.mem_cons_of_mem _ hc

theorem npMaxL_mem {l : List ℚ} (h : l ≠ []) : npMaxL l ∈ l := by
  match l, h with
  | a :: t, _ =>
    show (a :: t).foldl max ((a :: t).headD 0) ∈ a :: t
    simp only [List.headD_cons, List.foldl_cons, max_self]
    rcases foldl_max_cases t a with hc | hc
    · rw [hc]
      exact List.mem_cons_self _ _
    · exact List.mem_cons_of_mem _ hc

theorem le_npMaxL {l : List ℚ} (h : l ≠ []) : ∀ x ∈ l, x ≤ npMaxL l := by
  match l, h with
  | a :: t, _ =>
    intro x hx
    show x ≤ (a :: t).foldl max ((a :: t).headD 0)
    simp only [List.headD_cons, List.foldl_cons, max_self]
    rcases List.mem_cons.mp hx with hx | hx
    · subst hx
      exact (foldl_max_bounds t x).1
    · exact (foldl_max_bounds t a).2 x hx

theorem npMaxL_all_zero {l : List ℚ} (hz : ∀ x ∈ l, x = 0) : npMaxL l = 0 := by
  cases l with
  | nil => rfl
  | cons a t => exact hz _ (npMaxL_mem (by simp))

theorem npMeanL_all_zero {l : List ℚ} (hz : ∀ x ∈ l, x = 0) : npMeanL l = 0 := by
  rw [npMeanL, List.sum_eq_zero hz, zero_div]

theorem npMeanL_abs_pos {l : List ℚ} (hx : ∃ x ∈ l, x ≠ 0) :
    0 < npMeanL (l.map (fun v => |v|)) := by
  obtain ⟨x, hmem, hne⟩ := hx
  have hlen : 0 < l.length := List.length_pos.mpr (List.ne_nil_of_mem hmem)
  have hsum : |x| ≤ (l.map (fun v => |v|)).sum := by
    apply List.single_le_sum
    · intro b hb
      obtain ⟨v, _, rfl⟩ := List.mem_map.mp hb
      exact abs_nonneg v
    · exact List.mem_map.mpr ⟨x, hmem, rfl⟩
  have hpos : 0 < (l.map (fun v => |v|)).sum := lt_of_lt_of_le (abs_pos.mpr hne) hsum
  rw [npMeanL]
  apply div_pos hpos
  simpa using hlen

theorem getD_map_of_lt {α β : Type} [Inhabited β] (f : α → β) (l : List α)
    (i : ℕ) (h : i < l.length) (d : α) (d' : β) :
    (l.map f).getD i d' = f (l.getD i d) := by
  rw [List.getD_eq_getElem l d h,
    List.getD_eq_getElem (l.map f) d' (by simpa using h)]
  simp

theorem getD_zipWith_of_lt {α : Type} (f : α → α → α) (l1 l2 : List α)
    (i : ℕ) (h1 : i < l1.length) (h2 : i < l2.length) (d : α) :
    (List.zipWith f l1 l2).getD i d = f (l1.getD i d) (l2.getD i d) := by
  rw [List.getD_eq_getElem l1 d h1, List.getD_eq_getElem l2 d h2,
    List.getD_eq_getElem (List.zipWith f l1 l2) d (by simp [h1, h2])]
  simp

theorem uniformRows_iff (M : List (List ℚ)) :
    uniformRows M = true ↔ ∀ row ∈ M, row.length = (M.headD []).length := by
  simp [uniformRows, List.all_eq_true]

theorem sameShape_refl (M : List (List ℚ)) : sameShape M M = true := by
  simp only [sameShape, Bool.and_eq_true, beq_iff_eq, List.all_eq_true]
  refine ⟨trivial, ?_⟩
  intro b hb
  induction M with
  | nil => simp at hb
  | cons r t ih =>
    simp only [List.zipWith_cons_cons, List.mem_cons] at hb
    rcases hb with hb | hb
    · subst hb
      simp
    · exact ih hb

/-! ### The identity matrix and reconstruction identity -/

/-- Row `i` of the `r × r` identity matrix. -/
def unitRow : ℕ → ℕ → List ℚ
  | 0, _ => []
  | r + 1, 0 => 1 :: List.replicate r 0
  | r + 1, i + 1 => 0 :: unitRow r i

/-- The `r × r` identity matrix, as decoded from a capture whose `Q` block
is the fixed-point identity. -/
def idMatL (r : ℕ) : List (List ℚ) := (List.range r).map (unitRow r)

theorem unitRow_length : ∀ (r i : ℕ), (unitRow r i).length = r := by
  intro r
  induction r with
  | zero => intro i; rfl
  | succ s ih =>
    intro i
    cases i with
    | zero => simp [unitRow]
    | succ i' => simp [unitRow, ih i']

theorem dot_replicate_zero (j : ℕ) : ∀ (r : ℕ) (B : List (List ℚ)),
    (List.zipWith (fun a brow => a * brow.getD j 0) (List.replicate r (0 : ℚ)) B).sum = 0 := by
  intro r
  induction r with
  | zero => intro B; simp
  | succ s ih =>
    intro B
    cases B with
    | nil => simp
    | cons b B' =>
      simp only [List.replicate_succ, List.zipWith_cons_cons, List.sum_cons, zero_mul, zero_add]
      exact ih B'

theorem dotCol_unitRow (j : ℕ) : ∀ (i r : ℕ) (B : List (List ℚ)),
    i < r → r ≤ B.length →
    dotCol (unitRow r i) B j = (B.getD i []).getD j 0 := by
  intro i
  induction i with
  | zero =>
    intro r B hir hrB
    obtain ⟨s, rfl⟩ : ∃ s, r = s + 1 := ⟨r - 1, by omega⟩
    cases B with
    | nil => simp at hrB
    | cons b B' =>
      show (List.zipWith _ (1 :: List.replicate s 0) (b :: B')).sum = _
      simp only [List.zipWith_cons_cons, List.sum_cons, one_mul]
      rw [dot_replicate_zero]
      simp
  | succ i' ih =>
    intro r B hir hrB
    obtain ⟨s, rfl⟩ : ∃ s, r = s + 1 := ⟨r - 1, by omega⟩
    cases B with
    | nil => simp at hrB
    | cons b B' =>
      have h2 : dotCol (unitRow (s + 1) (i' + 1)) (b :: B') j =
          dotCol (unitRow s i') B' j := by
        show (List.zipWith _ (0 :: unitRow s i') (b :: B')).sum = _
        simp only [List.zipWith_cons_cons, List.sum_cons, zero_mul, zero_add]
        rfl
      rw [h2, ih s B' (by omega) (by simpa using hrB), List.getD_cons_succ]

theorem range_map_getD {α : Type} (l : List α) (d : α) :
    (List.range l.length).map (fun j => l.getD j d) = l := by
  apply List.ext_getElem (by simp)
  intro i h1 h2
  simp only [List.getElem_map, List.getElem_range]
  rw [List.getD_eq_getElem l d h2]

theorem idMatL_uniform (r : ℕ) : uniformRows (idMatL r) = true := by
  rw [uniformRows_iff]
  intro row hrow
  obtain ⟨i, _, rfl⟩ := List.mem_map.mp hrow
  cases r with
  | zero => simp [idMatL] at hrow
  | succ s =>
    rw [unitRow_length]
    have : (idMatL (s + 1)).headD [] = unitRow (s + 1) 0 := by
      simp [idMatL, List.range_succ_eq_map]
    rw [this, unitRow_length]

/-- `np.matmul(identity, A) = A` for any nonempty uniform `A` with `r`
rows. -/
theorem matmulE_id (r : ℕ) (A : List (List ℚ)) (hr : 0 < r)
    (hlen : A.length = r) (hu : uniformRows A = true) :
    matmulE (idMatL r) A = .ok A := by
  have hidne : idMatL r ≠ [] := by
    simp [idMatL, List.range_eq_nil]
    omega
  have hAne : A ≠ [] := by
    intro h
    rw [h] at hlen
    simp at hlen
    omega
  have hhead : ((idMatL r).headD []).length = A.length := by
    obtain ⟨s, rfl⟩ : ∃ s, r = s + 1 := ⟨r - 1, by omega⟩
    have : (idMatL (s + 1)).headD [] = unitRow (s + 1) 0 := by
      simp [idMatL, List.range_succ_eq_map]
    rw [this, unitRow_length, hlen]
  rw [matmulE, if_neg (by simp [hidne, hAne]), if_neg (by
      simp only [not_not]
      exact ⟨idMatL_uniform r, hu⟩),
    if_neg (by simp only [ne_eq, not_not]; exact hhead)]
  congr 1
  rw [idMatL, List.map_map]
  have hcols : ∀ row ∈ A, row.length = (A.headD []).length :=
    (uniformRows_iff A).mp hu
  have hrow : ∀ i ∈ List.range r,
      ((List.range (A.headD []).length).map (dotCol (unitRow r i) A)) = A.getD i [] := by
    intro i hi
    simp only [List.mem_range] at hi
    have hdot : ∀ j, dotCol (unitRow r i) A j = (A.getD i []).getD j 0 := by
      intro j
      exact dotCol_unitRow j i r A hi (by omega)
    have hlen2 : (A.getD i []).length = (A.headD []).length := by
      apply hcols
      rw [List.getD_eq_getElem A [] (by omega)]
      exact List.getElem_mem _
    calc (List.range (A.headD []).length).map (dotCol (unitRow r i) A)
        = (List.range (A.getD i []).length).map (fun j => (A.getD i []).getD j 0) := by
          rw [hlen2]
          exact List.map_congr_left (fun j _ => hdot j)
      _ = A.getD i [] := range_map_getD _ _
  calc (List.range r).map (fun i => (List.range (A.headD []).length).map (dotCol (unitRow r i) A))
      = (List.range r).map (fun i => A.getD i []) := List.map_congr_left hrow
    _ = A := by
        rw [← hlen]
        exact range_map_getD A []

/-! ### IEEE special values and the nan-aware error engine (C5)

The rational model above is exact wherever every quantity the script
computes is an ordinary finite double.  The one step of the square script
that can leave that domain is the error division
`(A - A_reconstructed) / A`: numpy evaluates `0.0 / 0.0` to `nan`,
division of a nonzero value by `0.0` to a signed infinity, and `np.max` /
`np.mean` propagate `nan` through their reductions.  `NpFloat` adjoins
these special values, and the definitions below re-run steps 3–4 of the
square script and its loop with the division, `np.abs`, `np.max` and
`np.mean` carried out on `NpFloat`. -/

/-- A double as it arises in the square script: a finite value (exact in
`ℚ`, every finite value the script handles being dyadic), `nan`, or a
signed infinity. -/
inductive NpFloat where
  | fin : ℚ → NpFloat
  | nan : NpFloat
  | pinf : NpFloat
  | ninf : NpFloat
deriving DecidableEq

/-- numpy division `a / b` of finite doubles: `0.0 / 0.0 = nan`, a
nonzero value over `0.0` is a signed infinity, otherwise the exact
quotient. -/
def npDiv (a b : ℚ) : NpFloat :=
  if b = 0 then
    (if a = 0 then .nan else (if 0 < a then .pinf else .ninf))
  else .fin (a / b)

/-- `np.abs` on a double: `|nan| = nan`, `|±inf| = +inf`. -/
def npAbsF : NpFloat → NpFloat
  | .fin q => .fin |q|
  | .nan => .nan
  | .pinf => .pinf
  | .ninf => .pinf

/-- IEEE addition, as performed by `np.mean`'s summation: `nan` absorbs,
and `+inf + -inf = nan`. -/
def npAddF : NpFloat → NpFloat → NpFloat
  | .fin a, .fin b => .fin (a + b)
  | .fin _, .pinf => .pinf
  | .fin _, .ninf => .ninf
  | .fin _, .nan => .nan
  | .pinf, .fin _ => .pinf
  | .pinf, .pinf => .pinf
  | .pinf, .ninf => .nan
  | .pinf, .nan => .nan
  | .ninf, .fin _ => .ninf
  | .ninf, .pinf => .nan
  | .ninf, .ninf => .ninf
  | .ninf, .nan => .nan
  | .nan, _ => .nan

/-- IEEE pairwise maximum as used by `np.max`'s reduction: `nan`
propagates, otherwise the larger value (`+inf` above everything, `-inf`
below everything). -/
def npMaxF : NpFloat → NpFloat → NpFloat
  | .fin a, .fin b => .fin (max a b)
  | .fin _, .pinf => .pinf
  | .fin a, .ninf => .fin a
  | .fin _, .nan => .nan
  | .pinf, .fin _ => .pinf
  | .pinf, .pinf => .pinf
  | .pinf, .ninf => .pinf
  | .pinf, .nan => .nan
  | .ninf, .fin b => .fin b
  | .ninf, .pinf => .pinf
  | .ninf, .ninf => .ninf
  | .ninf, .nan => .nan
  | .nan, _ => .nan

/-- Division of a double by the element count in `np.mean` (`0/0 = nan`
on an empty collection, `inf` keeps its sign over a positive count). -/
def npDivCount (x : NpFloat) (k : ℕ) : NpFloat :=
  match x with
  | .fin a => npDiv a (k : ℚ)
  | .nan => .nan
  | .pinf => .pinf
  | .ninf => .ninf

/-- `np.max` of a 1-d collection of doubles (cf. `npMaxL`): `nan`
propagates through the reduction. -/
def npMaxLF (l : List NpFloat) : NpFloat := l.foldl npMaxF (l.headD (.fin 0))

/-- `np.mean` of a 1-d collection of doubles: sum divided by length
(`nan` on `[]`, numpy's result for an empty mean). -/
def npMeanLF (l : List NpFloat) : NpFloat :=
  npDivCount (l.foldl npAddF (.fin 0)) l.length

/-- `np.abs((A - B) / A)` elementwise with IEEE semantics: a `0/0` entry
is `nan` and a nonzero value over a zero denominator has absolute value
`+inf` (cf. `elemErrRelE`, the exact-rational rendering of the same
source line). -/
def elemErrRelFE (A B : List (List ℚ)) :
    Except PyError (List (List NpFloat)) :=
  if sameShape A B then
    .ok (List.zipWith (List.zipWith (fun a b => npAbsF (npDiv (a - b) a))) A B)
  else .error .valueError

/-- `np.max` over all entries of a 2-d array of doubles. -/
def npMaxMF (M : List (List NpFloat)) : NpFloat := npMaxLF M.flatten

/-- `np.mean` over all entries of a 2-d array of doubles. -/
def npMeanMF (M : List (List NpFloat)) : NpFloat := npMeanLF M.flatten

/-- Steps 3–4 of the square script with the IEEE error division:
identical to `squareCore` (same reconstruction, same clamp threshold
`near0 = np.mean(np.abs(A_reconstructed)) / 1000`, same clamped matrices,
all of which stay finite) except that the relative-error matrix and its
max and mean carry numpy's `nan`/`inf` behaviour. -/
def squareCoreF (Anp Qnp Rnp : List (List ℚ)) :
    Except PyError
      (List (List ℚ) × List (List ℚ) × List (List NpFloat) ×
        NpFloat × NpFloat) := do
  let Arec ← matmulE Qnp Rnp
  let near0 := npMeanAbsM Arec / 1000
  let Arec' := clampMat near0 Arec
  let A' := clampMat near0 Anp
  let errors ← elemErrRelFE A' Arec'
  .ok (A', Arec', errors, npMaxMF errors, npMeanMF errors)

/-- One iteration of the square script's loop with the IEEE error
division, returning the `(highest_error, mean_error)` pair (the printed
output, which does not affect the returned values, is modelled by the
trace of `squareInstanceE`). -/
def squareInstanceFE (n : ℕ) (content : List (List Char)) (i : ℕ) :
    Except PyError (NpFloat × NpFloat) := do
  let Anp ← getMatrixE n content 'A' i
  let Rnp ← getMatrixE n content 'R' i
  let Qnp ← getMatrixE n content 'Q' i
  let (_, _, _, hi, me) ← squareCoreF Anp Qnp Rnp
  .ok (hi, me)

/-- The square script's loop over instance indices with the IEEE error
division, accumulating `highest_errors` and `mean_errors`. -/
def squareLoopFE (n : ℕ) (content : List (List Char)) :
    List ℕ → Except PyError (List NpFloat × List NpFloat)
  | [] => .ok ([], [])
  | i :: rest => do
    let (hi, me) ← squareInstanceFE n content i
    let (hs, ms) ← squareLoopFE n content rest
    .ok (hi :: hs, me :: ms)

set_option linter.unusedVariables false in
/-- `runErrorChecker` of the square variant with the IEEE error division:
`m` is accepted but unused and `suppress` gates only printing, exactly as
in `runErrorCheckerSq`; the returned pair is
`(np.max(highest_errors), np.mean(mean_errors))` on doubles. -/
def runErrorCheckerSqF (m : ℤ) (n : ℕ) (content : List (List Char))
    (suppress : Bool) : Except PyError (NpFloat × NpFloat) := do
  let na ← numArraysE content
  let (hs, ms) ← squareLoopFE n content (List.range na.toNat)
  if hs.isEmpty then .error .valueError
  else .ok (npMaxLF hs, npMeanLF ms)

theorem foldl_npMaxF_zero : ∀ (l : List NpFloat),
    (∀ x ∈ l, x = .fin 0) → l.foldl npMaxF (.fin 0) = .fin 0 := by
  intro l
  induction l with
  | nil => intro _; rfl
  | cons a t ih =>
    intro h
    rw [List.foldl_cons, h a (List.mem_cons_self a t),
      show npMaxF (.fin 0) (.fin 0) = .fin 0 from by simp [npMaxF]]
    exact ih (fun x hx => h x (List.mem_cons_of_mem a hx))

theorem npMaxLF_all_zero (l : List NpFloat) (h : ∀ x ∈ l, x = .fin 0) :
    npMaxLF l = .fin 0 := by
  rw [npMaxLF]
  cases l with
  | nil => rfl
  | cons a t =>
    rw [List.headD_cons, h a (List.mem_cons_self a t)]
    exact foldl_npMaxF_zero (.fin 0 :: t) (fun x hx => by
      rcases List.mem_cons.mp hx with h1 | h2
      · exact h1
      · exact h x (List.mem_cons_of_mem a h2))

theorem foldl_npAddF_zero : ∀ (l : List NpFloat),
    (∀ x ∈ l, x = .fin 0) → l.foldl npAddF (.fin 0) = .fin 0 := by
  intro l
  induction l with
  | nil => intro _; rfl
  | cons a t ih =>
    intro h
    rw [List.foldl_cons, h a (List.mem_cons_self a t),
      show npAddF (.fin 0) (.fin 0) = .fin 0 from by simp [npAddF]]
    exact ih (fun x hx => h x (List.mem_cons_of_mem a hx))

theorem npMeanLF_all_zero (l : List NpFloat) (hne : l ≠ [])
    (h : ∀ x ∈ l, x = .fin 0) : npMeanLF l = .fin 0 := by
  rw [npMeanLF, foldl_npAddF_zero l h]
  show npDiv 0 (l.length : ℚ) = .fin 0
  have hlen : ((l.length : ℚ)) ≠ 0 := by
    have h0 : l.length ≠ 0 := fun hcon => hne (List.length_eq_zero.mp hcon)
    exact_mod_cast h0
  rw [npDiv, if_neg hlen, zero_div]

theorem clampMat_ne_zero {n0 : ℚ} (h0 : 0 < n0) (M : List (List ℚ)) :
    ∀ row ∈ clampMat n0 M, ∀ v ∈ row, v ≠ 0 := by
  intro row hrow v hv
  simp only [clampMat, List.mem_map] at hrow
  obtain ⟨r0, _, rfl⟩ := hrow
  obtain ⟨a, _, rfl⟩ := List.mem_map.mp hv
  show (if |a| < n0 then n0 else a) ≠ 0
  by_cases hlt : |a| < n0
  · rw [if_pos hlt]
    exact ne_of_gt h0
  · rw [if_neg hlt]
    intro hcon
    apply hlt
    rw [hcon, abs_zero]
    exact h0

theorem elemErrRelFE_self (M : List (List ℚ))
    (hM : ∀ row ∈ M, ∀ v ∈ row, v ≠ 0) :
    elemErrRelFE M M =
      .ok (M.map (fun row => row.map (fun _ => .fin 0))) := by
  rw [elemErrRelFE, if_pos (sameShape_refl M)]
  congr 1
  rw [List.zipWith_same]
  apply List.map_congr_left
  intro row hrow
  rw [List.zipWith_same]
  apply List.map_congr_left
  intro a ha
  show npAbsF (npDiv (a - a) a) = .fin 0
  rw [sub_self, npDiv, if_neg (hM row hrow a ha), zero_div]
  show NpFloat.fin |0| = .fin 0
  rw [abs_zero]

theorem mem_zeroMatF {M : List (List ℚ)} {x : NpFloat}
    (hx : x ∈ (M.map (fun row => row.map (fun _ => NpFloat.fin 0))).flatten) :
    x = .fin 0 := by
  simp only [List.mem_flatten, List.mem_map] at hx
  obtain ⟨l, ⟨row, _, rfl⟩, hxl⟩ := hx
  obtain ⟨a, _, rfl⟩ := List.mem_map.mp hxl
  rfl

theorem clampMat_zeroMatF (n0 : ℚ) (M : List (List ℚ)) :
    (clampMat n0 M).map (fun row => row.map (fun _ => NpFloat.fin 0)) =
      M.map (fun row => row.map (fun _ => .fin 0)) := by
  simp [clampMat, List.map_map]

/-- A capture of one instance with `A = R = [[0]]` and `Q = [[2^19]]` in
Q3.19: the decoded `Q` is the `1 × 1` identity and the decoded `R` equals
the decoded `A`, but `A` is all zero. -/
def c5ZeroCapture : List (List Char) :=
  ["A0: 0)\n".data, "R0: 0)\n".data, "Q0: 524288)\n".data]

/-- C5, counterexample: the claim quantifies over every instance with
`Q = identity` and `R = A`, but on an all-zero `A` the checker does not
report worst and mean error `0.0`.  Here `A = R = [[0]]`, `Q = [[1]]`:
the reconstruction equals `A` exactly, yet `near0 = 0` leaves the clamp a
no-op and the error entry is `np.abs(0.0 / 0.0) = nan`, so the reported
worst and mean errors are `nan`, not `0.0`. -/
theorem c5_counterexample :
    getMatrixE 19 c5ZeroCapture 'Q' 0 = .ok (idMatL 1) ∧
    getMatrixE 19 c5ZeroCapture 'R' 0 = .ok [[0]] ∧
    getMatrixE 19 c5ZeroCapture 'A' 0 = .ok [[0]] ∧
    matmulE (idMatL 1) [[0]] = .ok [[0]] ∧
    squareCoreF [[0]] (idMatL 1) [[0]] =
      .ok ([[0]], [[0]], [[.nan]], .nan, .nan) ∧
    runErrorCheckerSqF 3 19 c5ZeroCapture true = .ok (.nan, .nan) ∧
    NpFloat.nan ≠ .fin 0 :=
  ⟨by with_unfolding_all rfl, by with_unfolding_all rfl,
   by with_unfolding_all rfl, by with_unfolding_all rfl,
   by with_unfolding_all rfl, by with_unfolding_all rfl, by decide⟩

set_option linter.unusedVariables false in
/-- C5, amended: for a capture instance whose decoded `Q` is the identity
matrix, whose decoded `R` equals the decoded `A`, and whose decoded `A`
is not all zero, the reconstruction `Q × R` equals `A` exactly, and the
error engine — with numpy's IEEE division semantics — reports an all-zero
error matrix, worst error exactly `0` and mean error exactly `0`: the
near-zero clamp introduces no distortion, since it clamps `A` and the
reconstruction identically, and `near0 > 0` makes every clamped
denominator nonzero, so no `nan` arises.  The cross-instance aggregates
over `N ≥ 1` such instances, `np.max` and `np.mean` of `N` zeros, are
both `0`.  (For an all-zero `A` the engine instead reports `nan`; see the
counterexample.) -/
theorem c5_amended_identity_reconstruction (r N : ℕ) (A : List (List ℚ))
    (hr : 0 < r) (hlen : A.length = r) (hu : uniformRows A = true)
    (hnz : ∃ x ∈ matFlatten A, x ≠ 0) (hN : 0 < N) :
    matmulE (idMatL r) A = .ok A ∧
    squareCoreF A (idMatL r) A =
      .ok (clampMat (npMeanAbsM A / 1000) A, clampMat (npMeanAbsM A / 1000) A,
           A.map (fun row => row.map (fun _ => NpFloat.fin 0)),
           .fin 0, .fin 0) ∧
    npMaxLF (List.replicate N (.fin 0)) = .fin 0 ∧
    npMeanLF (List.replicate N (.fin 0)) = .fin 0 := by
  have hmm := matmulE_id r A hr hlen hu
  have hmatabs : matFlatten (matAbs A) = (matFlatten A).map (fun v => |v|) := by
    rw [matAbs, matFlatten, matFlatten, List.map_flatten]
  have hpos : 0 < npMeanAbsM A / 1000 := by
    apply div_pos _ (by norm_num)
    rw [npMeanAbsM, hmatabs]
    exact npMeanL_abs_pos hnz
  have hAflat : matFlatten A ≠ [] := by
    obtain ⟨x, hmem, _⟩ := hnz
    exact List.ne_nil_of_mem hmem
  have hflatne :
      (A.map (fun row => row.map (fun _ => NpFloat.fin 0))).flatten ≠ [] := by
    rw [← List.map_flatten]
    intro hcon
    have hlen0 := congrArg List.length hcon
    simp only [List.length_map, List.length_nil] at hlen0
    exact hAflat (List.length_eq_zero.mp hlen0)
  have hNne : List.replicate N (NpFloat.fin 0) ≠ [] := by
    intro hcon
    have hlen0 := congrArg List.length hcon
    simp only [List.length_replicate, List.length_nil] at hlen0
    omega
  refine ⟨hmm, ?_,
    npMaxLF_all_zero _ (fun x hx => List.eq_of_mem_replicate hx),
    npMeanLF_all_zero _ hNne (fun x hx => List.eq_of_mem_replicate hx)⟩
  show (matmulE (idMatL r) A >>= _ : Except PyError _) = _
  rw [hmm]
  show (elemErrRelFE (clampMat (npMeanAbsM A / 1000) A)
      (clampMat (npMeanAbsM A / 1000) A) >>= _ : Except PyError _) = _
  rw [elemErrRelFE_self _ (clampMat_ne_zero hpos A), clampMat_zeroMatF]
  show Except.ok (_, _, _,
      npMaxMF (A.map (fun row => row.map (fun _ => NpFloat.fin 0))),
      npMeanMF (A.map (fun row => row.map (fun _ => NpFloat.fin 0)))) = _
  rw [show npMaxMF (A.map (fun row => row.map (fun _ => NpFloat.fin 0))) =
        .fin 0 from
      npMaxLF_all_zero _ (fun x hx => mem_zeroMatF hx),
    show npMeanMF (A.map (fun row => row.map (fun _ => NpFloat.fin 0))) =
        .fin 0 from
      npMeanLF_all_zero _ hflatne (fun x hx => mem_zeroMatF hx)]

/-- Witness for the amended C5: the decoded `2 × 2` identity capture of
the spec's end-to-end scenario (`A = Q = R = identity`, i.e. raw
`524288 = 2^19` on the diagonal in Q3.19, not all zero), with `N = 2`
instances. -/
theorem c5_amended_identity_reconstruction_witness :
    (0 < 2 ∧ ([[(1 : ℚ), 0], [0, 1]] : List (List ℚ)).length = 2 ∧
      uniformRows [[(1 : ℚ), 0], [0, 1]] = true ∧
      (∃ x ∈ matFlatten [[(1 : ℚ), 0], [0, 1]], x ≠ 0) ∧ 0 < 2) ∧
    (matmulE (idMatL 2) [[(1 : ℚ), 0], [0, 1]] = .ok [[1, 0], [0, 1]] ∧
     squareCoreF [[(1 : ℚ), 0], [0, 1]] (idMatL 2) [[(1 : ℚ), 0], [0, 1]] =
       .ok (clampMat (npMeanAbsM [[(1 : ℚ), 0], [0, 1]] / 1000) [[1, 0], [0, 1]],
            clampMat (npMeanAbsM [[(1 : ℚ), 0], [0, 1]] / 1000) [[1, 0], [0, 1]],
            ([[(1 : ℚ), 0], [0, 1]] : List (List ℚ)).map
              (fun row => row.map (fun _ => NpFloat.fin 0)),
            .fin 0, .fin 0) ∧
     npMaxLF (List.replicate 2 (.fin 0)) = .fin 0 ∧
     npMeanLF (List.replicate 2 (.fin 0)) = .fin 0) :=
  ⟨⟨by norm_num, by norm_num, by rfl,
    ⟨1, by simp [matFlatten], one_ne_zero⟩, by norm_num⟩,
   c5_amended_identity_reconstruction 2 2 [[(1 : ℚ), 0], [0, 1]]
     (by norm_num) (by norm_num) (by rfl)
     ⟨1, by simp [matFlatten], one_ne_zero⟩ (by norm_num)⟩

/-! ### Shape and entry lemmas for the relative-error engine -/

theorem sameShape_of : ∀ (A B : List (List ℚ)), A.length = B.length →
    (∀ i < A.length, (A.getD i []).length = (B.getD i []).length) →
    sameShape A B = true := by
  intro A
  induction A with
  | nil =>
    intro B h1 _
    cases B
    · rfl
    · simp at h1
  | cons ra ta ih =>
    intro B h1 h2
    cases B with
    | nil => simp at h1
    | cons rb tb =>
      have hhead : ra.length = rb.length := by
        have := h2 0 (by simp)
        simpa using this
      have htail := ih tb (by simpa using h1)
        (fun i hi => by simpa using h2 (i + 1) (by simpa using Nat.succ_lt_succ hi))
      simp only [sameShape, Bool.and_eq_true, beq_iff_eq, List.all_eq_true] at htail ⊢
      refine ⟨by simpa using h1, ?_⟩
      intro b hb
      simp only [List.zipWith_cons_cons, List.mem_cons] at hb
      rcases hb with hb | hb
      · subst hb
        simpa using hhead
      · exact htail.2 b hb

theorem matmulE_ok_elim {Q R M : List (List ℚ)} (h : matmulE Q R = .ok M) :
    M = Q.map (fun row =>
        (List.range ((R.headD []).length)).map (dotCol row R)) ∧
      Q ≠ [] ∧ R ≠ [] := by
  rw [matmulE] at h
  split_ifs at h with h1 h2 h3
  push_neg at h1
  injection h with h
  exact ⟨h.symm, h1.1, h1.2⟩

theorem matmulE_ok_uniform {Q R M : List (List ℚ)} (h : matmulE Q R = .ok M) :
    uniformRows M = true ∧
      ∀ row ∈ M, row.length = (R.headD []).length := by
  obtain ⟨hM, hQ, _⟩ := matmulE_ok_elim h
  have hrows : ∀ row ∈ M, row.length = (R.headD []).length := by
    intro row hrow
    rw [hM] at hrow
    obtain ⟨qrow, _, rfl⟩ := List.mem_map.mp hrow
    simp
  refine ⟨?_, hrows⟩
  rw [uniformRows_iff]
  intro row hrow
  rw [hrows row hrow]
  obtain ⟨q0, tQ, rfl⟩ : ∃ q0 tQ, Q = q0 :: tQ := by
    cases Q
    · exact absurd rfl hQ
    · exact ⟨_, _, rfl⟩
  rw [hM]
  simp

/-- C1: in relative mode, with `near0 = np.mean(np.abs(Q×R)) / 1000`, the
square-variant error engine replaces every entry of `A` and of the
reconstruction whose absolute value is below `near0` by `near0`, and then
computes each per-element error as `|a_ij - â_ij| / |a_ij|` of the clamped
values; when the reconstruction is not all zero, `near0 > 0`, every
denominator is at least `near0` (in particular nonzero, even where an
entry of `A` is `0`), and every per-element error is bounded by
`(|a_ij| + |â_ij|) / near0`. -/
theorem c1_relative_error_clamped_and_bounded
    (Anp Qnp Rnp Arec : List (List ℚ))
    (hrec : matmulE Qnp Rnp = .ok Arec)
    (huA : uniformRows Anp = true)
    (hlen : Anp.length = Arec.length)
    (hcols : (Anp.headD []).length = (Arec.headD []).length)
    (hnz : ∃ x ∈ matFlatten Arec, x ≠ 0) :
    0 < npMeanAbsM Arec / 1000 ∧
    ∃ errs : List (List ℚ),
      squareCore Anp Qnp Rnp =
        .ok (clampMat (npMeanAbsM Arec / 1000) Anp,
             clampMat (npMeanAbsM Arec / 1000) Arec,
             errs, npMaxM errs, npMeanM errs) ∧
      ∀ i j, i < Anp.length → j < (Anp.headD []).length →
        (matEntry (clampMat (npMeanAbsM Arec / 1000) Anp) i j =
            (if |matEntry Anp i j| < npMeanAbsM Arec / 1000
             then npMeanAbsM Arec / 1000 else matEntry Anp i j)) ∧
        (matEntry (clampMat (npMeanAbsM Arec / 1000) Arec) i j =
            (if |matEntry Arec i j| < npMeanAbsM Arec / 1000
             then npMeanAbsM Arec / 1000 else matEntry Arec i j)) ∧
        matEntry errs i j =
          |matEntry (clampMat (npMeanAbsM Arec / 1000) Anp) i j -
             matEntry (clampMat (npMeanAbsM Arec / 1000) Arec) i j| /
            |matEntry (clampMat (npMeanAbsM Arec / 1000) Anp) i j| ∧
        npMeanAbsM Arec / 1000 ≤
          |matEntry (clampMat (npMeanAbsM Arec / 1000) Anp) i j| ∧
        matEntry errs i j ≤
          (|matEntry (clampMat (npMeanAbsM Arec / 1000) Anp) i j| +
             |matEntry (clampMat (npMeanAbsM Arec / 1000) Arec) i j|) /
            (npMeanAbsM Arec / 1000) := by
  set near0 := npMeanAbsM Arec / 1000 with hnear0
  have hmatabs : matFlatten (matAbs Arec) = (matFlatten Arec).map (fun v => |v|) := by
    rw [matAbs, matFlatten, matFlatten, List.map_flatten]
  have hpos : 0 < near0 := by
    rw [hnear0]
    apply div_pos _ (by norm_num)
    rw [npMeanAbsM, hmatabs]
    exact npMeanL_abs_pos hnz
  obtain ⟨huRec, _⟩ := matmulE_ok_uniform hrec
  have hrowA : ∀ i < Anp.length, (Anp.getD i []).length = (Anp.headD []).length := by
    intro i hi
    apply (uniformRows_iff Anp).mp huA
    rw [List.getD_eq_getElem Anp [] hi]
    exact List.getElem_mem _
  have hrowR : ∀ i < Arec.length, (Arec.getD i []).length = (Arec.headD []).length := by
    intro i hi
    apply (uniformRows_iff Arec).mp huRec
    rw [List.getD_eq_getElem Arec [] hi]
    exact List.getElem_mem _
  have hshape : sameShape (clampMat near0 Anp) (clampMat near0 Arec) = true := by
    apply sameShape_of
    · simp [clampMat, hlen]
    · intro i hi
      simp only [clampMat, List.length_map] at hi
      simp only [clampMat]
      rw [getD_map_of_lt _ Anp i hi [] [],
        getD_map_of_lt _ Arec i (by omega) [] []]
      simp only [List.length_map]
      rw [hrowA i hi, hrowR i (by omega), hcols]
  have hcore : squareCore Anp Qnp Rnp =
      .ok (clampMat near0 Anp, clampMat near0 Arec,
        List.zipWith (List.zipWith fun a b => |(a - b) / a|)
          (clampMat near0 Anp) (clampMat near0 Arec),
        npMaxM (List.zipWith (List.zipWith fun a b => |(a - b) / a|)
          (clampMat near0 Anp) (clampMat near0 Arec)),
        npMeanM (List.zipWith (List.zipWith fun a b => |(a - b) / a|)
          (clampMat near0 Anp) (clampMat near0 Arec))) := by
    show (matmulE Qnp Rnp >>= _ : Except PyError _) = _
    rw [hrec]
    show (elemErrRelE (clampMat near0 Anp) (clampMat near0 Arec) >>= _ :
      Except PyError _) = _
    rw [elemErrRelE, if_pos hshape]
    rfl
  refine ⟨hpos, _, hcore, ?_⟩
  intro i j hi hj
  have hiR : i < Arec.length := by omega
  have hjA : j < (Anp.getD i []).length := by rw [hrowA i hi]; exact hj
  have hjR : j < (Arec.getD i []).length := by
    rw [hrowR i hiR, ← hcols]
    exact hj
  have ea : matEntry (clampMat near0 Anp) i j =
      (if |matEntry Anp i j| < near0 then near0 else matEntry Anp i j) := by
    rw [matEntry, matEntry, clampMat,
      getD_map_of_lt _ Anp i hi [] [],
      getD_map_of_lt _ (Anp.getD i []) j hjA 0 0]
  have eb : matEntry (clampMat near0 Arec) i j =
      (if |matEntry Arec i j| < near0 then near0 else matEntry Arec i j) := by
    rw [matEntry, matEntry, clampMat,
      getD_map_of_lt _ Arec i hiR [] [],
      getD_map_of_lt _ (Arec.getD i []) j hjR 0 0]
  have hlenA' : ((clampMat near0 Anp).getD i []).length = (Anp.getD i []).length := by
    rw [clampMat, getD_map_of_lt _ Anp i hi [] []]
    simp
  have hlenR' : ((clampMat near0 Arec).getD i []).length = (Arec.getD i []).length := by
    rw [clampMat, getD_map_of_lt _ Arec i hiR [] []]
    simp
  have ec : matEntry (List.zipWith (List.zipWith fun a b => |(a - b) / a|)
      (clampMat near0 Anp) (clampMat near0 Arec)) i j =
      |(matEntry (clampMat near0 Anp) i j -
          matEntry (clampMat near0 Arec) i j) /
        matEntry (clampMat near0 Anp) i j| := by
    rw [matEntry,
      getD_zipWith_of_lt _ (clampMat near0 Anp) (clampMat near0 Arec) i
        (by simpa [clampMat] using hi) (by simpa [clampMat] using hiR) [],
      getD_zipWith_of_lt _ _ _ j
        (by rw [hlenA']; exact hjA)
        (by rw [hlenR']; exact hjR) 0]
    rfl
  have hdenom : near0 ≤ |matEntry (clampMat near0 Anp) i j| := by
    rw [ea]
    split
    · rw [abs_of_pos hpos]
    · rename_i hcond
      exact le_of_not_lt hcond
  have ediv : matEntry (List.zipWith (List.zipWith fun a b => |(a - b) / a|)
      (clampMat near0 Anp) (clampMat near0 Arec)) i j =
      |matEntry (clampMat near0 Anp) i j -
          matEntry (clampMat near0 Arec) i j| /
        |matEntry (clampMat near0 Anp) i j| := by
    rw [ec, abs_div]
  refine ⟨ea, eb, ediv, hdenom, ?_⟩
  rw [ediv]
  have hnum : |matEntry (clampMat near0 Anp) i j -
      matEntry (clampMat near0 Arec) i j| ≤
      |matEntry (clampMat near0 Anp) i j| +
        |matEntry (clampMat near0 Arec) i j| := by
    calc |matEntry (clampMat near0 Anp) i j - matEntry (clampMat near0 Arec) i j|
        = |matEntry (clampMat near0 Anp) i j + -(matEntry (clampMat near0 Arec) i j)| := by
          rw [sub_eq_add_neg]
      _ ≤ |matEntry (clampMat near0 Anp) i j| + |-(matEntry (clampMat near0 Arec) i j)| :=
          abs_add _ _
      _ = _ := by rw [abs_neg]
  exact div_le_div₀ (by positivity) hnum hpos hdenom

/-- Witness for C1 at a concrete instance whose `A` has zero entries:
`A = I₂`, `Q = I₂`, `R = [[1,1],[0,1]]`, reconstruction `[[1,1],[0,1]]`
(not all zero). -/
theorem c1_relative_error_clamped_and_bounded_witness :
    (matmulE [[(1 : ℚ), 0], [0, 1]] [[(1 : ℚ), 1], [0, 1]] =
        .ok [[(1 : ℚ), 1], [0, 1]] ∧
      uniformRows [[(1 : ℚ), 0], [0, 1]] = true ∧
      ([[(1 : ℚ), 0], [0, 1]] : List (List ℚ)).length =
        ([[(1 : ℚ), 1], [0, 1]] : List (List ℚ)).length ∧
      (([[(1 : ℚ), 0], [0, 1]] : List (List ℚ)).headD []).length =
        (([[(1 : ℚ), 1], [0, 1]] : List (List ℚ)).headD []).length ∧
      (∃ x ∈ matFlatten [[(1 : ℚ), 1], [0, 1]], x ≠ 0)) ∧
    (0 < npMeanAbsM [[(1 : ℚ), 1], [0, 1]] / 1000 ∧
     ∃ errs : List (List ℚ),
       squareCore [[(1 : ℚ), 0], [0, 1]] [[(1 : ℚ), 0], [0, 1]]
           [[(1 : ℚ), 1], [0, 1]] =
         .ok (clampMat (npMeanAbsM [[(1 : ℚ), 1], [0, 1]] / 1000)
                [[(1 : ℚ), 0], [0, 1]],
              clampMat (npMeanAbsM [[(1 : ℚ), 1], [0, 1]] / 1000)
                [[(1 : ℚ), 1], [0, 1]],
              errs, npMaxM errs, npMeanM errs) ∧
       ∀ i j, i < ([[(1 : ℚ), 0], [0, 1]] : List (List ℚ)).length →
           j < (([[(1 : ℚ), 0], [0, 1]] : List (List ℚ)).headD []).length →
         (matEntry (clampMat (npMeanAbsM [[(1 : ℚ), 1], [0, 1]] / 1000)
              [[(1 : ℚ), 0], [0, 1]]) i j =
            (if |matEntry [[(1 : ℚ), 0], [0, 1]] i j| <
                 npMeanAbsM [[(1 : ℚ), 1], [0, 1]] / 1000
             then npMeanAbsM [[(1 : ℚ), 1], [0, 1]] / 1000
             else matEntry [[(1 : ℚ), 0], [0, 1]] i j)) ∧
         (matEntry (clampMat (npMeanAbsM [[(1 : ℚ), 1], [0, 1]] / 1000)
              [[(1 : ℚ), 1], [0, 1]]) i j =
            (if |matEntry [[(1 : ℚ), 1], [0, 1]] i j| <
                 npMeanAbsM [[(1 : ℚ), 1], [0, 1]] / 1000
             then npMeanAbsM [[(1 : ℚ), 1], [0, 1]] / 1000
             else matEntry [[(1 : ℚ), 1], [0, 1]] i j)) ∧
         matEntry errs i j =
           |matEntry (clampMat (npMeanAbsM [[(1 : ℚ), 1], [0, 1]] / 1000)
                [[(1 : ℚ), 0], [0, 1]]) i j -
              matEntry (clampMat (npMeanAbsM [[(1 : ℚ), 1], [0, 1]] / 1000)
                [[(1 : ℚ), 1], [0, 1]]) i j| /
             |matEntry (clampMat (npMeanAbsM [[(1 : ℚ), 1], [0, 1]] / 1000)
                [[(1 : ℚ), 0], [0, 1]]) i j| ∧
         npMeanAbsM [[(1 : ℚ), 1], [0, 1]] / 1000 ≤
           |matEntry (clampMat (npMeanAbsM [[(1 : ℚ), 1], [0, 1]] / 1000)
              [[(1 : ℚ), 0], [0, 1]]) i j| ∧
         matEntry errs i j ≤
           (|matEntry (clampMat (npMeanAbsM [[(1 : ℚ), 1], [0, 1]] / 1000)
                [[(1 : ℚ), 0], [0, 1]]) i j| +
              |matEntry (clampMat (npMeanAbsM [[(1 : ℚ), 1], [0, 1]] / 1000)
                [[(1 : ℚ), 1], [0, 1]]) i j|) /
             (npMeanAbsM [[(1 : ℚ), 1], [0, 1]] / 1000)) :=
  ⟨⟨by with_unfolding_all rfl, rfl, rfl, rfl,
    ⟨1, by simp [matFlatten], one_ne_zero⟩⟩,
   c1_relative_error_clamped_and_bounded
     [[(1 : ℚ), 0], [0, 1]] [[(1 : ℚ), 0], [0, 1]]
     [[(1 : ℚ), 1], [0, 1]] [[(1 : ℚ), 1], [0, 1]]
     (by with_unfolding_all rfl) rfl rfl rfl
     ⟨1, by simp [matFlatten], one_ne_zero⟩⟩

/-! ### Cross-instance aggregation (C2) -/

/-- The per-instance `(highest_error, mean_error)` pair of the square
checker, as an independent map over instance indices (the loop body
without its printed output). -/
def instancePairE (n : ℕ) (content : List (List Char)) (i : ℕ) :
    Except PyError (ℚ × ℚ) := do
  let Anp ← getMatrixE n content 'A' i
  let Rnp ← getMatrixE n content 'R' i
  let Qnp ← getMatrixE n content 'Q' i
  let (_, _, _, hi, me) ← squareCore Anp Qnp Rnp
  .ok (hi, me)

theorem instancePairE_eq (n : ℕ) (content : List (List Char)) (s : Bool)
    (i : ℕ) :
    instancePairE n content i =
      (squareInstanceE n content s i).map (fun t => (t.1, t.2.1)) := by
  unfold instancePairE squareInstanceE
  cases getMatrixE n content 'A' i with
  | error e => rfl
  | ok Anp =>
    cases getMatrixE n content 'R' i with
    | error e => rfl
    | ok Rnp =>
      cases getMatrixE n content 'Q' i with
      | error e => rfl
      | ok Qnp =>
        cases h4 : squareCore Anp Qnp Rnp with
        | error e =>
          show (Except.ok Anp >>= _ : Except PyError _) =
            (Except.ok Anp >>= _ : Except PyError _).map _
          simp only [bind, Except.bind, h4]
          rfl
        | ok t =>
          obtain ⟨A', Arec', errors, hi, me⟩ := t
          show (Except.ok Anp >>= _ : Except PyError _) =
            (Except.ok Anp >>= _ : Except PyError _).map _
          simp only [bind, Except.bind, h4]
          rfl

theorem squareLoopE_cons (n : ℕ) (content : List (List Char)) (s : Bool)
    (i : ℕ) (rest : List ℕ) :
    squareLoopE n content s (i :: rest) =
      (squareInstanceE n content s i >>= fun t =>
        squareLoopE n content s rest >>= fun u =>
        .ok (t.1 :: u.1, t.2.1 :: u.2.1, t.2.2 ++ u.2.2)) := by
  show (squareInstanceE n content s i >>= _ : Except PyError _) = _
  cases squareInstanceE n content s i with
  | error e => rfl
  | ok t =>
    obtain ⟨a, b, c⟩ := t
    show (squareLoopE n content s rest >>= _ : Except PyError _) =
      (squareLoopE n content s rest >>= _ : Except PyError _)
    cases squareLoopE n content s rest with
    | error e => rfl
    | ok u =>
      obtain ⟨u1, u2, u3⟩ := u
      rfl

theorem squareLoopE_pairs (n : ℕ) (content : List (List Char)) (s : Bool) :
    ∀ (l : List ℕ) (hs ms : List ℚ) (tr : List OutItem),
    squareLoopE n content s l = .ok (hs, ms, tr) →
    ∃ prs : List (ℚ × ℚ), mapME (instancePairE n content) l = .ok prs ∧
      hs = prs.map Prod.fst ∧ ms = prs.map Prod.snd := by
  intro l
  induction l with
  | nil =>
    intro hs ms tr h
    injection h with h
    simp only [Prod.mk.injEq] at h
    obtain ⟨h1, h2, h3⟩ := h
    subst h1
    subst h2
    exact ⟨[], rfl, rfl, rfl⟩
  | cons i rest ih =>
    intro hs ms tr h
    rw [squareLoopE_cons] at h
    cases hInst : squareInstanceE n content s i with
    | error e =>
      rw [hInst] at h
      simp only [bind, Except.bind] at h
      exact (Except.noConfusion h)
    | ok t =>
      rw [hInst] at h
      simp only [bind, Except.bind] at h
      cases hLoop : squareLoopE n content s rest with
      | error e =>
        rw [hLoop] at h
        exact (Except.noConfusion h)
      | ok u =>
        rw [hLoop] at h
        simp only [Except.ok.injEq, Prod.mk.injEq] at h
        obtain ⟨h1, h2, h3⟩ := h
        obtain ⟨prs', hmap', hh', hm'⟩ := ih u.1 u.2.1 u.2.2 (by
          rw [hLoop])
        refine ⟨(t.1, t.2.1) :: prs', ?_, ?_, ?_⟩
        · show (instancePairE n content i >>= _ : Except PyError _) = _
          rw [instancePairE_eq n content s i, hInst]
          show (mapME (instancePairE n content) rest >>= _ :
            Except PyError _) = _
          rw [hmap']
          rfl
        · rw [← h1, List.map_cons, ← hh']
        · rw [← h2, List.map_cons, ← hm']

/-- C2: whenever the square checker returns a result, its first component
is `np.max` of the per-instance maxima — an element of that list that
bounds every other element, not an average — and its second component is
the arithmetic mean (sum over length) of the per-instance means; in
particular `np.max` of per-instance maxima `[0.1, 0.05, 0.2]` is `0.2`. -/
theorem c2_aggregate_max_and_mean
    (m : ℤ) (n : ℕ) (content : List (List Char)) (s : Bool)
    (res : ℚ × ℚ) (tr : List OutItem)
    (h : runErrorCheckerSq m n content s = .ok (res, tr)) :
    ∃ (na : ℤ) (prs : List (ℚ × ℚ)),
      numArraysE content = .ok na ∧
      mapME (instancePairE n content) (List.range na.toNat) = .ok prs ∧
      prs ≠ [] ∧
      res.1 = npMaxL (prs.map Prod.fst) ∧
      res.1 ∈ prs.map Prod.fst ∧
      (∀ x ∈ prs.map Prod.fst, x ≤ res.1) ∧
      res.2 = npMeanL (prs.map Prod.snd) ∧
      res.2 = (prs.map Prod.snd).sum / (prs.map Prod.snd).length ∧
      npMaxL [1 / 10, 1 / 20, 1 / 5] = 1 / 5 := by
  rw [show runErrorCheckerSq m n content s =
      (numArraysE content >>= fun na =>
        squareLoopE n content s (List.range na.toNat) >>= fun u =>
        if u.1.isEmpty then .error .valueError
        else .ok ((npMaxL u.1, npMeanL u.2.1),
          u.2.2 ++ (if s then []
            else [.pairOut (npMaxL u.1) (npMeanL u.2.1)]))) from by
    show (numArraysE content >>= _ : Except PyError _) =
      (numArraysE content >>= _ : Except PyError _)
    cases numArraysE content with
    | error e => rfl
    | ok na =>
      simp only [bind, Except.bind]] at h
  cases hna : numArraysE content with
  | error e =>
    rw [hna] at h
    simp only [bind, Except.bind] at h
    exact (Except.noConfusion h)
  | ok na =>
    rw [hna] at h
    simp only [bind, Except.bind] at h
    cases hloop : squareLoopE n content s (List.range na.toNat) with
    | error e =>
      rw [hloop] at h
      exact (Except.noConfusion h)
    | ok u =>
      rw [hloop] at h
      obtain ⟨hs, ms, trs⟩ := u
      have h2 : (if hs.isEmpty = true
          then (Except.error PyError.valueError :
            Except PyError ((ℚ × ℚ) × List OutItem))
          else .ok ((npMaxL hs, npMeanL ms),
            trs ++ (if s then []
              else [.pairOut (npMaxL hs) (npMeanL ms)]))) = .ok (res, tr) := h
      clear h
      cases hemp : hs.isEmpty with
      | true =>
        rw [hemp] at h2
        simp only [if_true] at h2
        exact (Except.noConfusion h2)
      | false =>
        rw [hemp] at h2
        simp only [if_false, Bool.false_eq_true, Except.ok.injEq,
          Prod.mk.injEq] at h2
        obtain ⟨hres, htr⟩ := h2
        obtain ⟨prs, hmap, hh, hm⟩ :=
          squareLoopE_pairs n content s (List.range na.toNat) hs ms trs hloop
        have hne : prs ≠ [] := by
          intro hcon
          rw [hcon] at hh
          simp only [List.map_nil] at hh
          rw [hh] at hemp
          simp [List.isEmpty] at hemp
        have hres1 : res.1 = npMaxL hs := by rw [← hres]
        have hres2 : res.2 = npMeanL ms := by rw [← hres]
        refine ⟨na, prs, rfl, hmap, hne, ?_, ?_, ?_, ?_, ?_, ?_⟩
        · rw [hres1, hh]
        · rw [hres1, hh]
          exact npMaxL_mem (by simpa using hne)
        · intro x hx
          rw [hres1, hh]
          exact le_npMaxL (by simpa using hne) x (hh ▸ hx)
        · rw [hres2, hm]
        · rw [hres2, hm]
          rfl
        · with_unfolding_all rfl

/-- A minimal well-formed capture: one instance, `1 × 1` matrices
`A = Q = R = [[2^19]]` in Q3.19 (decoded value 1). -/
def exCapture1 : List (List Char) :=
  ["A0: 524288)\n".data, "R0: 524288)\n".data, "Q0: 524288)\n".data]

/-- Witness for C2 on `exCapture1` (run succeeds with result `(0, 0)`). -/
theorem c2_aggregate_max_and_mean_witness :
    runErrorCheckerSq 3 19 exCapture1 true = .ok (((0 : ℚ), (0 : ℚ)), []) ∧
    (∃ (na : ℤ) (prs : List (ℚ × ℚ)),
      numArraysE exCapture1 = .ok na ∧
      mapME (instancePairE 19 exCapture1) (List.range na.toNat) = .ok prs ∧
      prs ≠ [] ∧
      ((0 : ℚ), (0 : ℚ)).1 = npMaxL (prs.map Prod.fst) ∧
      ((0 : ℚ), (0 : ℚ)).1 ∈ prs.map Prod.fst ∧
      (∀ x ∈ prs.map Prod.fst, x ≤ ((0 : ℚ), (0 : ℚ)).1) ∧
      ((0 : ℚ), (0 : ℚ)).2 = npMeanL (prs.map Prod.snd) ∧
      ((0 : ℚ), (0 : ℚ)).2 =
        (prs.map Prod.snd).sum / (prs.map Prod.snd).length ∧
      npMaxL [1 / 10, 1 / 20, 1 / 5] = 1 / 5) :=
  ⟨by with_unfolding_all rfl,
   c2_aggregate_max_and_mean 3 19 exCapture1 true ((0 : ℚ), (0 : ℚ)) []
     (by with_unfolding_all rfl)⟩

/-! ### Missing-matrix behaviour (C3) -/

/-- A capture whose instance 0 has `A` and `Q` lines but no `R` line. -/
def c3Capture : List (List Char) :=
  ["A0: 524288)\n".data, "Q0: 524288)\n".data]

/-- C3, counterexample: on a capture with zero `R0` lines the square
checker does not raise a `MissingMatrixError` identifying instance 0 and
kind `R`; it fails with the generic `ValueError` that numpy's `matmul`
raises on the resulting empty matrix. -/
theorem c3_counterexample :
    selectTag (tagStr 'R' 0) c3Capture = [] ∧
    runErrorCheckerSq 3 19 c3Capture true = .error .valueError ∧
    (Except.error PyError.valueError :
        Except PyError ((ℚ × ℚ) × List OutItem)) ≠
      .error (.missingMatrix 0 'R') :=
  ⟨by decide, by with_unfolding_all rfl, by simp⟩

/-- C3, amended: for any capture reporting at least one instance in which
instance 0 decodes its `A` and `Q` blocks but has zero lines tagged `R0`,
the parser silently produces an empty `R` matrix and the run aborts with
the generic `ValueError` of `np.matmul` — no error identifying the
instance index or the matrix kind exists in the code. -/
theorem c3_amended_missing_R_generic_error
    (m : ℤ) (n : ℕ) (content : List (List Char)) (s : Bool) (na : ℤ)
    (hna : numArraysE content = .ok na) (hna1 : 0 < na)
    (Anp : List (List ℚ)) (hA : getMatrixE n content 'A' 0 = .ok Anp)
    (hR : selectTag (tagStr 'R' 0) content = [])
    (Qnp : List (List ℚ)) (hQ : getMatrixE n content 'Q' 0 = .ok Qnp) :
    runErrorCheckerSq m n content s = .error .valueError := by
  have hRok : getMatrixE n content 'R' 0 = .ok [] := by
    rw [getMatrixE, hR]
    rfl
  have hcore : squareCore Anp Qnp [] = .error .valueError := by
    show (matmulE Qnp [] >>= _ : Except PyError _) = _
    rw [matmulE, if_pos (Or.inr rfl)]
    rfl
  have hinst : squareInstanceE n content s 0 = .error .valueError := by
    show (getMatrixE n content 'A' 0 >>= _ : Except PyError _) = _
    rw [hA]
    show (getMatrixE n content 'R' 0 >>= _ : Except PyError _) = _
    rw [hRok]
    show (getMatrixE n content 'Q' 0 >>= _ : Except PyError _) = _
    rw [hQ]
    show (squareCore Anp Qnp [] >>= _ : Except PyError _) = _
    rw [hcore]
    rfl
  obtain ⟨k, hk⟩ : ∃ k, na.toNat = k + 1 := ⟨na.toNat - 1, by omega⟩
  show (numArraysE content >>= _ : Except PyError _) = _
  rw [hna]
  show (squareLoopE n content s (List.range na.toNat) >>= _ :
    Except PyError _) = _
  rw [hk, List.range_succ_eq_map, squareLoopE_cons, hinst]
  rfl

/-- Witness for the amended C3 on `c3Capture`. -/
theorem c3_amended_missing_R_generic_error_witness :
    (numArraysE c3Capture = .ok 1 ∧ (0 : ℤ) < 1 ∧
      getMatrixE 19 c3Capture 'A' 0 = .ok [[1]] ∧
      selectTag (tagStr 'R' 0) c3Capture = [] ∧
      getMatrixE 19 c3Capture 'Q' 0 = .ok [[1]]) ∧
    runErrorCheckerSq 3 19 c3Capture true = .error .valueError :=
  ⟨⟨rfl, by decide, by with_unfolding_all rfl, by decide,
    by with_unfolding_all rfl⟩,
   c3_amended_missing_R_generic_error 3 19 c3Capture true 1
     rfl (by decide) [[1]] (by with_unfolding_all rfl)
     (by decide) [[1]] (by with_unfolding_all rfl)⟩

/-! ### The instance count from the last line (C7) -/

/-- A record line of the capture format: a one-character kind tag, the
decimal digits of the instance index, a colon, and the rest of the line. -/
structure TagLine where
  kind : Char
  idx : ℕ
  rest : List Char
deriving DecidableEq

/-- Render a record line: `{kind}{idx}:{rest}`. -/
def render7 (d : TagLine) : List Char :=
  d.kind :: (natDigits d.idx ++ ':' :: d.rest)

theorem findIdxOpt_append_colon (pre post : List Char)
    (h : ∀ c ∈ pre, c ≠ ':') :
    findIdxOpt ':' (pre ++ ':' :: post) = some pre.length := by
  induction pre with
  | nil => simp [findIdxOpt]
  | cons c t ih =>
    have hc : c ≠ ':' := h c (by simp)
    show (if c = ':' then some 0
      else (findIdxOpt ':' (t ++ ':' :: post)).map (· + 1)) =
      some (c :: t).length
    rw [if_neg hc, ih (fun x hx => h x (by simp [hx]))]
    rfl

theorem pySliceIdx_of_nonneg_le (len : ℕ) (i : ℤ) (h0 : 0 ≤ i)
    (h1 : i ≤ len) : pySliceIdx len i = i.toNat := by
  rw [pySliceIdx, if_neg (by omega)]
  rw [min_eq_right h1, max_eq_right h0]

theorem render7_tag_parse (d : TagLine) (hk : d.kind ≠ ':') :
    pyIntE (pySlice (render7 d) 1 (pyFind (render7 d) ':')) =
      .ok (d.idx : ℤ) := by
  have hfind : pyFind (render7 d) ':' = ((1 + (natDigits d.idx).length : ℕ) : ℤ) := by
    rw [pyFind, render7,
      show d.kind :: (natDigits d.idx ++ ':' :: d.rest) =
        (d.kind :: natDigits d.idx) ++ ':' :: d.rest from rfl,
      findIdxOpt_append_colon (d.kind :: natDigits d.idx) d.rest (by
        intro c hc
        rcases List.mem_cons.mp hc with hc | hc
        · subst hc; exact hk
        · exact isDigit_ne_colon (natDigits_all_digit d.idx c hc))]
    simp only [Option.elim, List.length_cons]
    push_cast
    omega
  have hlen : (render7 d).length =
      1 + (natDigits d.idx).length + 1 + d.rest.length := by
    simp [render7]
    omega
  have hslice : pySlice (render7 d) 1 (pyFind (render7 d) ':') =
      natDigits d.idx := by
    rw [pySlice, hfind]
    rw [pySliceIdx_of_nonneg_le _ 1 (by omega) (by
        rw [hlen]; push_cast; omega),
      pySliceIdx_of_nonneg_le _ _ (by positivity) (by
        rw [hlen]; push_cast; omega)]
    show ((render7 d).drop 1).take ((1 + (natDigits d.idx).length) - 1) =
      natDigits d.idx
    rw [render7]
    simp only [List.drop_succ_cons, List.drop_zero]
    rw [show 1 + (natDigits d.idx).length - 1 = (natDigits d.idx).length
      from by omega]
    rw [show natDigits d.idx ++ ':' :: d.rest =
      natDigits d.idx ++ (':' :: d.rest) from rfl]
    exact List.take_left _ _
  rw [hslice]
  have hdig := natDigits_all_digit d.idx
  have hne := natDigits_ne_nil d.idx
  obtain ⟨c0, crest, hcons⟩ : ∃ c0 crest, natDigits d.idx = c0 :: crest := by
    cases hcase : natDigits d.idx
    · exact absurd hcase hne
    · exact ⟨_, _, rfl⟩
  have hc0 : c0 ≠ '-' := by
    intro hcon
    have := hdig c0 (by rw [hcons]; simp)
    rw [hcon] at this
    exact absurd this (by decide)
  rw [hcons, pyIntE, if_neg hc0,
    if_pos (by rw [← hcons]; simp only [List.all_eq_true]; exact hdig),
    ← hcons, parseNatRaw_natDigits]

theorem chain_toFinset_Icc : ∀ (l : List ℕ) (a : ℕ),
    List.Chain' (fun x y => y = x ∨ y = x + 1) (a :: l) →
    (a :: l).toFinset = Finset.Icc a ((a :: l).getLastD 0) := by
  intro l
  induction l with
  | nil =>
    intro a _
    simp
  | cons b t ih =>
    intro a hchain
    have hstep : b = a ∨ b = a + 1 := (List.chain'_cons.mp hchain).1
    have htail := ih b (List.chain'_cons.mp hchain).2
    have hbL : b ≤ (b :: t).getLastD 0 := by
      have : b ∈ (b :: t).toFinset := by simp
      rw [htail] at this
      exact (Finset.mem_Icc.mp this).2
    have hLast : (a :: b :: t).getLastD 0 = (b :: t).getLastD 0 := by
      simp [List.getLastD]
    rw [hLast,
      show (a :: b :: t).toFinset = insert a ((b :: t).toFinset) from by simp,
      htail]
    ext x
    simp only [Finset.mem_insert, Finset.mem_Icc]
    omega

/-- C7: for a non-empty capture whose every line is a record line (a
one-character kind tag, the instance index digits, a colon, then the rest
of the line), the parser's instance count
`int(content[-1][1:content[-1].find(":")]) + 1` equals the last line's
instance index plus one; and under the producer precondition that
instance indices start at 0 and increase without gaps, that value is
exactly the number of distinct instances in the file. -/
theorem c7_instance_count (ls : List TagLine) (k : ℕ)
    (hne : ls ≠ [])
    (hkinds : ∀ d ∈ ls, d.kind ≠ ':')
    (hlast : (ls.map (fun d => d.idx)).getLast? = some k)
    (hhead : (ls.map (fun d => d.idx)).head? = some 0)
    (hchain : List.Chain' (fun a b => b = a ∨ b = a + 1)
      (ls.map (fun d => d.idx))) :
    numArraysE (ls.map render7) = .ok ((k : ℤ) + 1) ∧
    (ls.map (fun d => d.idx)).toFinset = Finset.range (k + 1) ∧
    (ls.map (fun d => d.idx)).toFinset.card = k + 1 := by
  obtain ⟨dlast, hdlast⟩ : ∃ d, ls.getLast? = some d := by
    cases hcase : ls.getLast?
    · rw [List.getLast?_eq_none_iff] at hcase
      exact absurd hcase hne
    · exact ⟨_, rfl⟩
  have hkidx : dlast.idx = k := by
    rw [List.getLast?_map, hdlast] at hlast
    simpa using hlast
  have hnum : numArraysE (ls.map render7) = .ok ((k : ℤ) + 1) := by
    rw [numArraysE]
    rw [show (ls.map render7).getLast? = some (render7 dlast) from by
      rw [List.getLast?_map, hdlast]; rfl]
    have hdk : dlast.kind ≠ ':' := by
      apply hkinds
      rw [List.getLast?_eq_getLast ls hne] at hdlast
      injection hdlast with h
      rw [← h]
      exact List.getLast_mem hne
    show Except.map (fun x => x + 1)
      (pyIntE (pySlice (render7 dlast) 1 (pyFind (render7 dlast) ':'))) =
      .ok ((k : ℤ) + 1)
    rw [render7_tag_parse dlast hdk, hkidx]
    rfl
  obtain ⟨idx0, tidx, hcons⟩ : ∃ a t, ls.map (fun d => d.idx) = a :: t := by
    cases hcase : ls.map (fun d => d.idx)
    · rw [List.map_eq_nil_iff] at hcase
      exact absurd hcase hne
    · exact ⟨_, _, rfl⟩
  have ha0 : idx0 = 0 := by
    rw [hcons] at hhead
    simpa using hhead
  have hlastD : (idx0 :: tidx).getLastD 0 = k := by
    have : (idx0 :: tidx).getLast? = some k := by rw [← hcons]; exact hlast
    rw [List.getLastD_eq_getLast?]
    rw [this]
    rfl
  have hfin : (ls.map (fun d => d.idx)).toFinset = Finset.range (k + 1) := by
    rw [hcons, chain_toFinset_Icc tidx idx0 (by rw [← hcons]; exact hchain),
      hlastD, ha0]
    ext x
    simp only [Finset.mem_Icc, Finset.mem_range]
    omega
  exact ⟨hnum, hfin, by rw [hfin, Finset.card_range]⟩

/-- Witness for C7: a three-line capture with instances `0, 0, 1`
(`A0`, `Q0`, `A1`), whose last line yields count `1 + 1 = 2`, matching
the two distinct instances. -/
theorem c7_instance_count_witness :
    (([⟨'A', 0, " 12)\n".data⟩, ⟨'Q', 0, " 7)\n".data⟩,
        ⟨'A', 1, " 9)\n".data⟩] : List TagLine) ≠ [] ∧
      (∀ d ∈ ([⟨'A', 0, " 12)\n".data⟩, ⟨'Q', 0, " 7)\n".data⟩,
        ⟨'A', 1, " 9)\n".data⟩] : List TagLine), d.kind ≠ ':') ∧
      (([⟨'A', 0, " 12)\n".data⟩, ⟨'Q', 0, " 7)\n".data⟩,
        ⟨'A', 1, " 9)\n".data⟩] : List TagLine).map
          (fun d => d.idx)).getLast? = some 1 ∧
      (([⟨'A', 0, " 12)\n".data⟩, ⟨'Q', 0, " 7)\n".data⟩,
        ⟨'A', 1, " 9)\n".data⟩] : List TagLine).map
          (fun d => d.idx)).head? = some 0 ∧
      List.Chain' (fun a b => b = a ∨ b = a + 1)
        (([⟨'A', 0, " 12)\n".data⟩, ⟨'Q', 0, " 7)\n".data⟩,
          ⟨'A', 1, " 9)\n".data⟩] : List TagLine).map (fun d => d.idx))) ∧
    (numArraysE (([⟨'A', 0, " 12)\n".data⟩, ⟨'Q', 0, " 7)\n".data⟩,
        ⟨'A', 1, " 9)\n".data⟩] : List TagLine).map render7) =
        .ok ((1 : ℤ) + 1) ∧
      (([⟨'A', 0, " 12)\n".data⟩, ⟨'Q', 0, " 7)\n".data⟩,
        ⟨'A', 1, " 9)\n".data⟩] : List TagLine).map
          (fun d => d.idx)).toFinset = Finset.range (1 + 1) ∧
      (([⟨'A', 0, " 12)\n".data⟩, ⟨'Q', 0, " 7)\n".data⟩,
        ⟨'A', 1, " 9)\n".data⟩] : List TagLine).map
          (fun d => d.idx)).toFinset.card = 1 + 1) :=
  ⟨⟨by decide, by decide, by decide, by decide,
    List.chain'_cons.mpr ⟨Or.inl rfl,
      List.chain'_cons.mpr ⟨Or.inr rfl, List.chain'_singleton _⟩⟩⟩,
   c7_instance_count
     [⟨'A', 0, " 12)\n".data⟩, ⟨'Q', 0, " 7)\n".data⟩,
      ⟨'A', 1, " 9)\n".data⟩] 1
     (by decide) (by decide) (by decide) (by decide)
     (List.chain'_cons.mpr ⟨Or.inl rfl,
       List.chain'_cons.mpr ⟨Or.inr rfl, List.chain'_singleton _⟩⟩)⟩

/-! ### The rectangular-variant aggregation (C6)
(`5_..._rectangualr_matrices/scripts/error_checker.py`, absolute mode) -/

/-- Population variance of a list: the square of `np.std`. -/
def popVarL (l : List ℚ) : ℚ :=
  npMeanL (l.map (fun x => (x - npMeanL l) ^ 2))

/-- `np.std(ms)²` for a list `ms` of equally-shaped matrices: numpy
stacks the list into a single array and takes the population standard
deviation over all pooled elements; `np.std` itself is the floating-point
square root of this rational value, which is carried exactly (squared)
here since the root is in general irrational. -/
def npStdSqStack (ms : List (List (List ℚ))) : ℚ :=
  popVarL ((ms.map matFlatten).flatten)

/-- One iteration of the rectangular checker on decoded matrices (source
steps 3–4 and the `sd_errors.append(np.abs(errors))` of step 5):
reconstruct `Q × R`, take elementwise absolute errors, and return the
`np.abs`'d error matrix together with the instance's max and mean.  (The
per-instance `np.std` is only printed, not used in the returned
aggregates, and is not modelled.) -/
def rectInstanceE (Anp Qnp Rnp : List (List ℚ)) :
    Except PyError (List (List ℚ) × ℚ × ℚ) := do
  let Arec ← matmulE Qnp Rnp
  let errors ← elemErrAbsE Anp Arec
  .ok (matAbs errors, npMaxM errors, npMeanM errors)

/-- The rectangular `runErrorChecker`'s loop and aggregation over the
decoded instance triples `(A, Q, R)` (the parsing that produces them is
the subject of the rectangular extraction development below), with
`print_percentiles = False`: it returns
`(np.max(highest_errors), np.mean(mean_errors), np.std(sd_errors))`, the
third component modelled by its square. -/
def runErrorCheckerRect
    (instances : List (List (List ℚ) × List (List ℚ) × List (List ℚ))) :
    Except PyError (ℚ × ℚ × ℚ) := do
  let tris ← mapME (fun t => rectInstanceE t.1 t.2.1 t.2.2) instances
  if tris.isEmpty then .error .valueError
  else .ok (npMaxL (tris.map (fun t => t.2.1)),
            npMeanL (tris.map (fun t => t.2.2)),
            npStdSqStack (tris.map (fun t => t.1)))

set_option linter.unusedVariables false in
/-- C6: in absolute mode the third aggregate of the rectangular checker is
the population standard deviation (carried as its square) computed over
all per-element absolute errors pooled from every instance together — the
flattened concatenation of all error matrices — not instance by instance;
and in general this differs from the mean of the per-instance standard
deviations: for error matrices `[[0,0]]` and `[[0,1]]` the pooled variance
is `3/16`, the per-instance variances are `0` and `1/4`, and
`√(3/16) ≠ (√0 + √(1/4))/2`. -/
theorem c6_pooled_std
    (instances : List (List (List ℚ) × List (List ℚ) × List (List ℚ)))
    (tris : List (List (List ℚ) × ℚ × ℚ))
    (hmap : mapME (fun t => rectInstanceE t.1 t.2.1 t.2.2) instances =
      .ok tris)
    (hne : tris ≠ [])
    (hshape : ∀ M ∈ tris.map (fun t => t.1), ∀ M' ∈ tris.map (fun t => t.1),
      sameShape M M' = true) :
    runErrorCheckerRect instances =
      .ok (npMaxL (tris.map (fun t => t.2.1)),
           npMeanL (tris.map (fun t => t.2.2)),
           popVarL ((tris.map (fun t => matFlatten t.1)).flatten)) ∧
    popVarL ((tris.map (fun t => matFlatten t.1)).flatten) =
      (((tris.map (fun t => matFlatten t.1)).flatten).map
        (fun x => (x - ((tris.map (fun t => matFlatten t.1)).flatten).sum /
          ((tris.map (fun t => matFlatten t.1)).flatten).length) ^ 2)).sum /
        ((tris.map (fun t => matFlatten t.1)).flatten).length ∧
    npStdSqStack [[[(0 : ℚ), 0]], [[(0 : ℚ), 1]]] = 3 / 16 ∧
    popVarL (matFlatten [[(0 : ℚ), 0]]) = 0 ∧
    popVarL (matFlatten [[(0 : ℚ), 1]]) = 1 / 4 ∧
    Real.sqrt (3 / 16) ≠ (Real.sqrt 0 + Real.sqrt (1 / 4)) / 2 := by
  have hne2 : tris.isEmpty = false := by
    cases tris
    · exact absurd rfl hne
    · rfl
  have hrun : runErrorCheckerRect instances =
      .ok (npMaxL (tris.map (fun t => t.2.1)),
           npMeanL (tris.map (fun t => t.2.2)),
           npStdSqStack (tris.map (fun t => t.1))) := by
    show (mapME (fun t => rectInstanceE t.1 t.2.1 t.2.2) instances >>= _ :
      Except PyError _) = _
    rw [hmap]
    show (if tris.isEmpty then _ else _ : Except PyError _) = _
    rw [hne2]
    rfl
  have hstack : npStdSqStack (tris.map (fun t => t.1)) =
      popVarL ((tris.map (fun t => matFlatten t.1)).flatten) := by
    rw [npStdSqStack, List.map_map]
    rfl
  refine ⟨by rw [hrun, hstack],
    by rw [popVarL, npMeanL, npMeanL, List.length_map], ?_, ?_, ?_, ?_⟩
  · with_unfolding_all rfl
  · with_unfolding_all rfl
  · with_unfolding_all rfl
  · intro heq
    have h1 : Real.sqrt ((3 : ℝ) / 16) ^ 2 = 3 / 16 :=
      Real.sq_sqrt (by norm_num)
    have h2 : Real.sqrt ((1 : ℝ) / 4) = 1 / 2 := by
      rw [show (1 : ℝ) / 4 = (1 / 2) ^ 2 by norm_num,
        Real.sqrt_sq (by norm_num)]
    rw [heq, Real.sqrt_zero, h2] at h1
    norm_num at h1

/-- Witness for C6: two `1 × 2` instances with error matrices `[[0,0]]`
and `[[0,1]]`; the pooled variance `3/16` differs from the squared mean
`1/16` of the per-instance standard deviations `0` and `1/2`. -/
theorem c6_pooled_std_witness :
    (mapME (fun t => rectInstanceE t.1 t.2.1 t.2.2)
        [([[(1 : ℚ), 1]], [[(1 : ℚ)]], [[(1 : ℚ), 1]]),
         ([[(1 : ℚ), 2]], [[(1 : ℚ)]], [[(1 : ℚ), 1]])] =
      .ok [([[(0 : ℚ), 0]], 0, 0), ([[(0 : ℚ), 1]], 1, 1 / 2)] ∧
     ([([[(0 : ℚ), 0]], (0 : ℚ), (0 : ℚ)),
       ([[(0 : ℚ), 1]], 1, 1 / 2)] :
        List (List (List ℚ) × ℚ × ℚ)) ≠ [] ∧
     (∀ M ∈ ([([[(0 : ℚ), 0]], (0 : ℚ), (0 : ℚ)),
          ([[(0 : ℚ), 1]], 1, 1 / 2)] :
          List (List (List ℚ) × ℚ × ℚ)).map (fun t => t.1),
       ∀ M' ∈ ([([[(0 : ℚ), 0]], (0 : ℚ), (0 : ℚ)),
          ([[(0 : ℚ), 1]], 1, 1 / 2)] :
          List (List (List ℚ) × ℚ × ℚ)).map (fun t => t.1),
       sameShape M M' = true)) ∧
    runErrorCheckerRect
        [([[(1 : ℚ), 1]], [[(1 : ℚ)]], [[(1 : ℚ), 1]]),
         ([[(1 : ℚ), 2]], [[(1 : ℚ)]], [[(1 : ℚ), 1]])] =
      .ok (npMaxL ([([[(0 : ℚ), 0]], (0 : ℚ), (0 : ℚ)),
              ([[(0 : ℚ), 1]], 1, 1 / 2)].map (fun t => t.2.1)),
           npMeanL ([([[(0 : ℚ), 0]], (0 : ℚ), (0 : ℚ)),
              ([[(0 : ℚ), 1]], 1, 1 / 2)].map (fun t => t.2.2)),
           popVarL (([([[(0 : ℚ), 0]], (0 : ℚ), (0 : ℚ)),
              ([[(0 : ℚ), 1]], 1, 1 / 2)].map
                (fun t => matFlatten t.1)).flatten)) :=
  ⟨⟨by with_unfolding_all rfl, List.cons_ne_nil _ _, by decide⟩,
   (c6_pooled_std
     [([[(1 : ℚ), 1]], [[(1 : ℚ)]], [[(1 : ℚ), 1]]),
      ([[(1 : ℚ), 2]], [[(1 : ℚ)]], [[(1 : ℚ), 1]])]
     [([[(0 : ℚ), 0]], 0, 0), ([[(0 : ℚ), 1]], 1, 1 / 2)]
     (by with_unfolding_all rfl) (List.cons_ne_nil _ _) (by decide)).1⟩

/-! ### The rectangular-variant extraction (C4)
(`5_..._rectangualr_matrices/scripts/error_checker.py`, lines 54–87) -/

/-- The substring `"row "` that `isLast` searches for. -/
def rowPat : List Char := ['r', 'o', 'w', ' ']

/-- First index at which `pat` occurs as a contiguous substring. -/
def findSubOpt (pat : List Char) : List Char → Option ℕ
  | [] => if pat.isPrefixOf ([] : List Char) then some 0 else none
  | x :: xs =>
    if pat.isPrefixOf (x :: xs) then some 0
    else (findSubOpt pat xs).map (· + 1)

/-- Python `s.find(sub)` for a substring needle: first index or `-1`. -/
def pyFindSub (s pat : List Char) : ℤ :=
  (findSubOpt pat s).elim (-1) (fun k => (k : ℤ))

/-- The source's `isLast(mat, line)` handed to `itertools.takewhile`:
`line.find(mat) == 0` (i.e. `mat` is a prefix of `line`) and the digit at
`line[line.find("row ")+4]`, sliced by `[0:line.find(":")]` and parsed as
an integer, equals `array_dimension` — in which case it returns `False`
(stop); otherwise `True` (keep scanning).  Index and parse errors
propagate as exceptions, as in Python. -/
def isLastE (arrayDim : ℤ) (mat line : List Char) : Except PyError Bool :=
  if mat.isPrefixOf line then do
    let ch ← pyIndexE line (pyFindSub line rowPat + 4)
    let v ← pyIntE (pySlice [ch] 0 (pyFind line ':'))
    .ok (decide (v ≠ arrayDim))
  else .ok true

/-- `itertools.takewhile` with a fallible predicate, evaluated lazily:
elements past the first failing one are never examined. -/
def takeWhileE (p : List Char → Except PyError Bool) :
    List (List Char) → Except PyError (List (List Char))
  | [] => .ok []
  | x :: xs => do
    let b ← p x
    if b then (takeWhileE p xs).map (x :: ·) else .ok []

/-- The rectangular parser's selection of one kind of one instance:
`[x for x in itertools.takewhile(lambda l: isLast(f"{kind}{i+1}", l), content)
if x[0:x.find(":")] == f"{kind}{i}"]`. -/
def rectSelect (arrayDim : ℤ) (kind : Char) (i : ℕ)
    (content : List (List Char)) : Except PyError (List (List Char)) :=
  (takeWhileE (isLastE arrayDim (tagStr kind (i + 1))) content).map
    (List.filter (fun x => tagOf x == tagStr kind i))

/-- `for x in sel: content.remove(x)` — remove the first occurrence (by
value) of each selected line in order.  (Python raises when a value is
absent; in every modelled run each selected value is present.) -/
def pyRemoveAll (content : List (List Char)) (xs : List (List Char)) :
    List (List Char) :=
  xs.foldl (fun c x => c.erase x) content

/-- One iteration of the rectangular extraction for instance `i` (source
lines 62–87): select the `A`, `R` and `Q` lines by the bounded scan over
the current content, then remove the selected `A`, `Q`, `R` lines (in the
source's removal order) from the content. -/
def rectIterE (arrayDim : ℤ) (i : ℕ) (content : List (List Char)) :
    Except PyError
      ((List (List Char) × List (List Char) × List (List Char)) ×
        List (List Char)) := do
  let As ← rectSelect arrayDim 'A' i content
  let Rs ← rectSelect arrayDim 'R' i content
  let Qs ← rectSelect arrayDim 'Q' i content
  .ok ((As, Rs, Qs),
    pyRemoveAll (pyRemoveAll (pyRemoveAll content As) Qs) Rs)

/-- The whole extraction loop over the instance indices. -/
def rectExtractAll (arrayDim : ℤ) (content : List (List Char)) :
    List ℕ → Except PyError
      (List (List (List Char) × List (List Char) × List (List Char)))
  | [] => .ok []
  | i :: rest => do
    let (tri, content2) ← rectIterE arrayDim i content
    let tris ← rectExtractAll arrayDim content2 rest
    .ok (tri :: tris)

/-- A record line of the rectangular capture format:
`{kind}{idx}:row {dim}: {vals})\n` — the descriptor carries the row-count
digit that `isLast` reads at `line[line.find("row ")+4]`. -/
structure RectLine where
  kind : Char
  idx : ℕ
  dim : ℕ
  vals : List Char
deriving DecidableEq

/-- Render a rectangular record line. -/
def renderRect (d : RectLine) : List Char :=
  d.kind :: (natDigits d.idx ++ ':' ::
    (rowPat ++ digitChar d.dim :: ':' :: ' ' :: (d.vals ++ [')', '\n'])))

/-- Characters allowed in a value field (digits, minus signs, spaces). -/
def valCharOK (c : Char) : Bool := c.isDigit || c == '-' || c == ' '

/-- Well-formedness of a rectangular record line per the capture format:
kind among `A`/`Q`/`R`, a one-digit row count, and a clean value field. -/
def rectLineOK (d : RectLine) : Bool :=
  (d.kind == 'A' || d.kind == 'Q' || d.kind == 'R') &&
    decide (d.dim < 10) && d.vals.all valCharOK

theorem tagOf_cons_digits (kind : Char) (idx : ℕ) (rest : List Char)
    (hk : kind ≠ ':') :
    tagOf (kind :: (natDigits idx ++ ':' :: rest)) = kind :: natDigits idx := by
  have hfind : pyFind (kind :: (natDigits idx ++ ':' :: rest)) ':' =
      ((1 + (natDigits idx).length : ℕ) : ℤ) := by
    rw [pyFind,
      show kind :: (natDigits idx ++ ':' :: rest) =
        (kind :: natDigits idx) ++ ':' :: rest from rfl,
      findIdxOpt_append_colon (kind :: natDigits idx) rest (by
        intro c hc
        rcases List.mem_cons.mp hc with hc | hc
        · subst hc; exact hk
        · exact isDigit_ne_colon (natDigits_all_digit idx c hc))]
    simp only [Option.elim, List.length_cons]
    push_cast
    omega
  have hlen : (kind :: (natDigits idx ++ ':' :: rest)).length =
      1 + (natDigits idx).length + 1 + rest.length := by
    simp
    omega
  rw [tagOf, pySlice, hfind,
    pySliceIdx_of_nonneg_le _ 0 le_rfl (by positivity),
    pySliceIdx_of_nonneg_le _ _ (by positivity) (by rw [hlen]; push_cast; omega)]
  show ((kind :: (natDigits idx ++ ':' :: rest)).drop 0).take
    ((1 + (natDigits idx).length) - 0) = _
  rw [List.drop_zero, Nat.sub_zero,
    show (1 : ℕ) + (natDigits idx).length = (kind :: natDigits idx).length
      from by simp [Nat.add_comm],
    show kind :: (natDigits idx ++ ':' :: rest) =
      (kind :: natDigits idx) ++ ':' :: rest from rfl,
    List.take_left]

theorem tagStr_inj {k k' : Char} {i i' : ℕ}
    (h : tagStr k i = tagStr k' i') : k = k' ∧ i = i' := by
  rw [tagStr, tagStr] at h
  injection h with h1 h2
  exact ⟨h1, natDigits_inj h2⟩

theorem isPrefixOf_append_self (l t : List Char) :
    l.isPrefixOf (l ++ t) = true :=
  List.isPrefixOf_iff_prefix.mpr (List.prefix_append l t)

theorem findSubOpt_rowPat (pre suf : List Char) (h : ∀ c ∈ pre, c ≠ 'r') :
    findSubOpt rowPat (pre ++ rowPat ++ suf) = some pre.length := by
  induction pre with
  | nil =>
    show findSubOpt rowPat (rowPat ++ suf) = some 0
    rw [show rowPat ++ suf = 'r' :: (['o', 'w', ' '] ++ suf) from rfl,
      findSubOpt, if_pos]
    rw [show 'r' :: (['o', 'w', ' '] ++ suf) = rowPat ++ suf from rfl]
    exact isPrefixOf_append_self rowPat suf
  | cons c t ih =>
    have hc : c ≠ 'r' := h c (by simp)
    show findSubOpt rowPat (c :: (t ++ rowPat ++ suf)) = some (c :: t).length
    rw [findSubOpt, if_neg (by
      intro hcon
      have : rowPat.isPrefixOf (c :: (t ++ rowPat ++ suf)) = true := hcon
      rw [List.isPrefixOf_iff_prefix] at this
      obtain ⟨t2, ht2⟩ := this
      rw [show rowPat ++ t2 = 'r' :: (['o', 'w', ' '] ++ t2) from rfl] at ht2
      injection ht2 with h1 _
      exact hc h1.symm), ih (fun x hx => h x (by simp [hx]))]
    rfl

theorem getD_append_length (l1 l2 : List Char) (c : Char) :
    (l1 ++ c :: l2).getD l1.length ' ' = c := by
  induction l1 with
  | nil => rfl
  | cons a t ih => simpa using ih

theorem pySliceIdx_of_ge (len : ℕ) (i : ℤ) (h : (len : ℤ) ≤ i) :
    pySliceIdx len i = len := by
  rw [pySliceIdx, if_neg (by omega), min_eq_left h,
    max_eq_right (by positivity)]
  omega

theorem rectLineOK_elim {d : RectLine} (hok : rectLineOK d = true) :
    (d.kind = 'A' ∨ d.kind = 'Q' ∨ d.kind = 'R') ∧ d.dim < 10 ∧
      ∀ c ∈ d.vals, valCharOK c = true := by
  rw [rectLineOK] at hok
  simp only [Bool.and_eq_true, Bool.or_eq_true, beq_iff_eq,
    decide_eq_true_eq, List.all_eq_true] at hok
  exact ⟨by tauto, hok.1.2, hok.2⟩

theorem rectKind_ne_colon {d : RectLine} (hok : rectLineOK d = true) :
    d.kind ≠ ':' := by
  rcases (rectLineOK_elim hok).1 with h | h | h <;> rw [h] <;> decide

theorem rectKind_ne_r {d : RectLine} (hok : rectLineOK d = true) :
    d.kind ≠ 'r' := by
  rcases (rectLineOK_elim hok).1 with h | h | h <;> rw [h] <;> decide

theorem renderRect_length (d : RectLine) :
    (renderRect d).length = 11 + (natDigits d.idx).length + d.vals.length := by
  simp [renderRect, rowPat]
  omega

theorem isLastE_render (arrayDim : ℤ) (mat : List Char) (d : RectLine)
    (hok : rectLineOK d = true) :
    isLastE arrayDim mat (renderRect d) =
      .ok (if mat.isPrefixOf (renderRect d)
           then decide ((d.dim : ℤ) ≠ arrayDim) else true) := by
  obtain ⟨hkind, hdim, hvals⟩ := rectLineOK_elim hok
  by_cases hpre : mat.isPrefixOf (renderRect d) = true
  · rw [isLastE, if_pos hpre, if_pos hpre]
    have hfsub : pyFindSub (renderRect d) rowPat =
        ((2 + (natDigits d.idx).length : ℕ) : ℤ) := by
      rw [pyFindSub,
        show renderRect d = (d.kind :: (natDigits d.idx ++ [':'])) ++ rowPat ++
          (digitChar d.dim :: ':' :: ' ' :: (d.vals ++ [')', '\n'])) from by
            simp [renderRect],
        findSubOpt_rowPat _ _ (by
          intro c hc
          rcases List.mem_cons.mp hc with hc | hc
          · subst hc; exact rectKind_ne_r hok
          · rcases List.mem_append.mp hc with hc | hc
            · exact isDigit_ne_r (natDigits_all_digit d.idx c hc)
            · simp only [List.mem_singleton] at hc
              subst hc; decide)]
      simp only [Option.elim, List.length_cons, List.length_append,
        List.length_singleton, List.length_nil]
      push_cast
      omega
    have hchar : pyIndexE (renderRect d)
        (pyFindSub (renderRect d) rowPat + 4) = .ok (digitChar d.dim) := by
      rw [hfsub, pyIndexE]
      rw [if_pos (by
        constructor
        · positivity
        · rw [renderRect_length]
          push_cast
          omega)]
      congr 1
      rw [show ((((2 + (natDigits d.idx).length : ℕ) : ℤ)) + 4) =
        ((6 + (natDigits d.idx).length : ℕ) : ℤ) from by push_cast; omega,
        if_neg (by push_cast; omega),
        Int.toNat_natCast,
        show renderRect d = (d.kind :: (natDigits d.idx ++ ':' :: rowPat)) ++
          digitChar d.dim :: (':' :: ' ' :: (d.vals ++ [')', '\n'])) from by
            simp [renderRect],
        show (6 + (natDigits d.idx).length) =
          (d.kind :: (natDigits d.idx ++ ':' :: rowPat)).length from by
            simp [rowPat]
            omega]
      exact getD_append_length _ _ _
    have hfcol : pyFind (renderRect d) ':' =
        ((1 + (natDigits d.idx).length : ℕ) : ℤ) := by
      rw [pyFind,
        show renderRect d = (d.kind :: natDigits d.idx) ++ ':' ::
          (rowPat ++ digitChar d.dim :: ':' :: ' ' :: (d.vals ++ [')', '\n']))
          from by simp [renderRect],
        findIdxOpt_append_colon _ _ (by
          intro c hc
          rcases List.mem_cons.mp hc with hc | hc
          · subst hc; exact rectKind_ne_colon hok
          · exact isDigit_ne_colon (natDigits_all_digit d.idx c hc))]
      simp only [Option.elim, List.length_cons]
      push_cast
      omega
    have hslice : pySlice [digitChar d.dim] 0 (pyFind (renderRect d) ':') =
        [digitChar d.dim] := by
      rw [hfcol, pySlice]
      simp only [List.length_singleton]
      rw [pySliceIdx_of_nonneg_le 1 0 le_rfl (by norm_num),
        pySliceIdx_of_ge 1 _ (by push_cast; omega)]
      rfl
    have hint : pyIntE [digitChar d.dim] = .ok ((d.dim : ℤ)) := by
      have hd : (digitChar d.dim).isDigit = true := digitChar_isDigit hdim
      rw [pyIntE, if_neg (by
          intro hcon
          rw [hcon] at hd
          exact absurd hd (by decide)),
        if_pos (by simp [hd])]
      have : parseNatRaw [digitChar d.dim] = d.dim := by
        show [digitChar d.dim].foldl _ 0 = d.dim
        simp [digitVal_digitChar hdim]
      rw [this]
    show (pyIndexE (renderRect d) (pyFindSub (renderRect d) rowPat + 4) >>=
      _ : Except PyError _) = _
    rw [hchar]
    show (pyIntE (pySlice [digitChar d.dim] 0 (pyFind (renderRect d) ':'))
      >>= _ : Except PyError _) = _
    rw [hslice, hint]
    rfl
  · rw [isLastE, if_neg hpre, if_neg hpre]

theorem takeWhileE_map_ok (p : List Char → Except PyError Bool)
    (f : RectLine → List Char) (qd : RectLine → Bool) :
    ∀ ds : List RectLine, (∀ d ∈ ds, p (f d) = .ok (qd d)) →
    takeWhileE p (ds.map f) = .ok ((ds.takeWhile qd).map f) := by
  intro ds
  induction ds with
  | nil => intro _; rfl
  | cons d t ih =>
    intro h
    show (p (f d) >>= _ : Except PyError _) = _
    rw [h d (by simp)]
    show (if qd d then (takeWhileE p (t.map f)).map (f d :: ·)
      else .ok [] : Except PyError _) = _
    by_cases hq : qd d = true
    · rw [if_pos hq, ih (fun x hx => h x (by simp [hx])),
        List.takeWhile_cons_of_pos hq]
      rfl
    · rw [if_neg hq, List.takeWhile_cons_of_neg (by simpa using hq)]
      rfl

theorem filter_takeWhile_mono {α : Type} (R : α → α → Prop) (q pr : α → Bool) :
    ∀ l : List α, List.Pairwise R l →
    (∀ a ∈ l, q a = false → pr a = false) →
    (∀ a ∈ l, ∀ b ∈ l, R a b → q a = false → pr b = false) →
    (l.takeWhile q).filter pr = l.filter pr := by
  intro l
  induction l with
  | nil => intro _ _ _; rfl
  | cons a t ih =>
    intro hpw hstop hafter
    by_cases hq : q a = true
    · rw [List.takeWhile_cons_of_pos hq, List.filter_cons, List.filter_cons,
        ih (List.pairwise_cons.mp hpw).2
          (fun x hx => hstop x (List.mem_cons_of_mem a hx))
          (fun x hx y hy => hafter x (List.mem_cons_of_mem a hx) y
            (List.mem_cons_of_mem a hy))]
    · have hqf : q a = false := by simpa using hq
      rw [List.takeWhile_cons_of_neg (by simpa using hq)]
      symm
      rw [show (List.filter pr [] : List α) = [] from rfl,
        List.filter_eq_nil_iff]
      intro y hy
      rcases List.mem_cons.mp hy with hy | hy
      · subst hy
        simp [hstop y (by simp) hqf]
      · simp [hafter a (by simp) y (List.mem_cons_of_mem a hy)
          ((List.pairwise_cons.mp hpw).1 y hy) hqf]

theorem erase_foldl_of_ne {α : Type} [BEq α] [LawfulBEq α] :
    ∀ (xs : List α) (l : List α) (a : α), (∀ x ∈ xs, x ≠ a) →
    xs.foldl (fun c x => c.erase x) (a :: l) =
      a :: xs.foldl (fun c x => c.erase x) l := by
  intro xs
  induction xs with
  | nil => intro l a _; rfl
  | cons x t ih =>
    intro l a h
    show t.foldl _ ((a :: l).erase x) = _
    rw [List.erase_cons_tail (by
      simp only [beq_iff_eq]
      intro hcon
      exact h x (by simp) hcon.symm)]
    exact ih (l.erase x) a (fun y hy => h y (by simp [hy]))

theorem foldl_erase_filter {α : Type} [BEq α] [LawfulBEq α] (p : α → Bool) :
    ∀ l : List α,
    (l.filter p).foldl (fun c x => c.erase x) l =
      l.filter (fun x => !(p x)) := by
  intro l
  induction l with
  | nil => rfl
  | cons a t ih =>
    by_cases hp : p a = true
    · rw [List.filter_cons_of_pos hp]
      show (t.filter p).foldl _ ((a :: t).erase a) = _
      rw [List.erase_cons_head, ih, List.filter_cons_of_neg (by simp [hp])]
    · have hpf : p a = false := by simpa using hp
      rw [List.filter_cons_of_neg (by simp [hpf]),
        erase_foldl_of_ne (t.filter p) t a (by
          intro x hx hcon
          have := List.of_mem_filter hx
          rw [hcon, hpf] at this
          cases this), ih,
        List.filter_cons_of_pos (by simp [hpf])]

theorem tag_prefix_idx {k : Char} {j : ℕ} {d : RectLine}
    (hpre : (tagStr k j).isPrefixOf (renderRect d) = true) :
    d.kind = k ∧ j ≤ d.idx := by
  rw [List.isPrefixOf_iff_prefix] at hpre
  rw [tagStr, renderRect] at hpre
  obtain ⟨t, ht⟩ := hpre
  rw [List.cons_append] at ht
  injection ht with h1 h2
  refine ⟨h1.symm, ?_⟩
  have hpre2 : natDigits j <+: (natDigits d.idx ++ ':' ::
      (rowPat ++ digitChar d.dim :: ':' :: ' ' :: (d.vals ++ [')', '\n']))) :=
    ⟨t, h2⟩
  by_cases hlen : (natDigits j).length ≤ (natDigits d.idx).length
  · exact natDigits_le_of_isPrefix
      (List.prefix_of_prefix_length_le hpre2 (List.prefix_append _ _) hlen)
  · exfalso
    push_neg at hlen
    have h3 : (natDigits d.idx ++ [':']) <+: (natDigits d.idx ++ ':' ::
        (rowPat ++ digitChar d.dim :: ':' :: ' ' :: (d.vals ++ [')', '\n']))) := by
      rw [show natDigits d.idx ++ ':' ::
          (rowPat ++ digitChar d.dim :: ':' :: ' ' :: (d.vals ++ [')', '\n'])) =
        (natDigits d.idx ++ [':']) ++
          (rowPat ++ digitChar d.dim :: ':' :: ' ' :: (d.vals ++ [')', '\n']))
        from by simp]
      exact List.prefix_append _ _
    have h4 : (natDigits d.idx ++ [':']) <+: natDigits j :=
      List.prefix_of_prefix_length_le h3 hpre2 (by simp; omega)
    exact isDigit_ne_colon
      (natDigits_all_digit j ':' (h4.subset (by simp))) rfl

/-- The selection predicate at the record level: the line's pre-colon
prefix equals `f"{kind}{i}"`. -/
def tagSelB (kind : Char) (i : ℕ) (d : RectLine) : Bool :=
  tagOf (renderRect d) == tagStr kind i

/-- The pure value of the `takewhile` predicate on a well-formed line. -/
def stopKeepB (arrayDim : ℤ) (kind : Char) (i : ℕ) (d : RectLine) : Bool :=
  if (tagStr kind (i + 1)).isPrefixOf (renderRect d)
  then decide ((d.dim : ℤ) ≠ arrayDim) else true

theorem tagSelB_iff {kind : Char} {i : ℕ} {d : RectLine}
    (hok : rectLineOK d = true) :
    tagSelB kind i d = true ↔ d.kind = kind ∧ d.idx = i := by
  rw [tagSelB, renderRect,
    tagOf_cons_digits d.kind d.idx _ (rectKind_ne_colon hok)]
  constructor
  · intro h
    exact tagStr_inj (show tagStr d.kind d.idx = tagStr kind i from
      eq_of_beq h)
  · intro ⟨h1, h2⟩
    subst h1
    subst h2
    exact beq_self_eq_true _

theorem stopKeepB_false {aD : ℤ} {kind : Char} {i : ℕ} {d : RectLine}
    (h : stopKeepB aD kind i d = false) :
    (tagStr kind (i + 1)).isPrefixOf (renderRect d) = true := by
  rw [stopKeepB] at h
  by_cases hp : (tagStr kind (i + 1)).isPrefixOf (renderRect d) = true
  · exact hp
  · rw [if_neg hp] at h
    cases h

theorem tagSelB_false_of_idx_ge {k2 : Char} {i : ℕ} {d : RectLine}
    (hok : rectLineOK d = true) (hgt : i < d.idx) :
    tagSelB k2 i d = false := by
  by_cases h : tagSelB k2 i d = true
  · obtain ⟨_, h2⟩ := (tagSelB_iff hok).mp h
    omega
  · simpa using h

theorem rectSelect_eq (arrayDim : ℤ) (kind : Char) (i : ℕ)
    (ds : List RectLine) (hok : ∀ d ∈ ds, rectLineOK d = true)
    (hmono : List.Pairwise (fun a b => a.idx ≤ b.idx) ds) :
    rectSelect arrayDim kind i (ds.map renderRect) =
      .ok ((ds.filter (tagSelB kind i)).map renderRect) := by
  rw [rectSelect,
    takeWhileE_map_ok _ renderRect (stopKeepB arrayDim kind i) ds (fun d hd =>
      by rw [isLastE_render arrayDim _ d (hok d hd)]; rfl)]
  show Except.ok
    (((ds.takeWhile (stopKeepB arrayDim kind i)).map renderRect).filter
      (fun x => tagOf x == tagStr kind i)) = _
  congr 1
  rw [List.filter_map]
  congr 1
  rw [show List.filter ((fun x => tagOf x == tagStr kind i) ∘ renderRect)
        (ds.takeWhile (stopKeepB arrayDim kind i)) =
      List.filter (tagSelB kind i)
        (ds.takeWhile (stopKeepB arrayDim kind i)) from
      List.filter_congr (fun d _ => rfl)]
  apply filter_takeWhile_mono (fun a b => a.idx ≤ b.idx)
    (stopKeepB arrayDim kind i) (tagSelB kind i) ds hmono
  · intro d hd hstop
    have hpre := stopKeepB_false hstop
    obtain ⟨_, hge⟩ := tag_prefix_idx hpre
    exact tagSelB_false_of_idx_ge (hok d hd) (by omega)
  · intro a ha b hb hR hstop
    have hpre := stopKeepB_false hstop
    obtain ⟨_, hge⟩ := tag_prefix_idx hpre
    exact tagSelB_false_of_idx_ge (hok b hb) (by omega)

theorem tagPr_disjoint {k k' : Char} (hkk : k ≠ k') (i : ℕ) (x : List Char)
    (h : (tagOf x == tagStr k i) = true) :
    (tagOf x == tagStr k' i) = false := by
  by_cases h2 : (tagOf x == tagStr k' i) = true
  · have e1 : tagOf x = tagStr k i := eq_of_beq h
    have e2 : tagOf x = tagStr k' i := eq_of_beq h2
    exact absurd (tagStr_inj (e1 ▸ e2)).1 hkk
  · simpa using h2

/-- A record line left in the content after processing instance `i`: not
an `A`-, `Q`- or `R`-tag of instance `i` (in the order the removals
compose). -/
def notTagAQR (i : ℕ) (d : RectLine) : Bool :=
  !(tagSelB 'R' i d) && (!(tagSelB 'Q' i d) && !(tagSelB 'A' i d))

theorem rectIterE_eq (arrayDim : ℤ) (i : ℕ) (ds : List RectLine)
    (hok : ∀ d ∈ ds, rectLineOK d = true)
    (hmono : List.Pairwise (fun a b => a.idx ≤ b.idx) ds) :
    rectIterE arrayDim i (ds.map renderRect) = .ok
      (((ds.filter (tagSelB 'A' i)).map renderRect,
        (ds.filter (tagSelB 'R' i)).map renderRect,
        (ds.filter (tagSelB 'Q' i)).map renderRect),
       (ds.filter (notTagAQR i)).map renderRect) := by
  have hA := rectSelect_eq arrayDim 'A' i ds hok hmono
  have hR := rectSelect_eq arrayDim 'R' i ds hok hmono
  have hQ := rectSelect_eq arrayDim 'Q' i ds hok hmono
  show (rectSelect arrayDim 'A' i (ds.map renderRect) >>= _ :
    Except PyError _) = _
  rw [hA]
  show (rectSelect arrayDim 'R' i (ds.map renderRect) >>= _ :
    Except PyError _) = _
  rw [hR]
  show (rectSelect arrayDim 'Q' i (ds.map renderRect) >>= _ :
    Except PyError _) = _
  rw [hQ]
  show Except.ok (_, pyRemoveAll (pyRemoveAll (pyRemoveAll
    (ds.map renderRect) ((ds.filter (tagSelB 'A' i)).map renderRect))
    ((ds.filter (tagSelB 'Q' i)).map renderRect))
    ((ds.filter (tagSelB 'R' i)).map renderRect)) = _
  congr 2
  -- line-level predicates
  have hmapA : (ds.filter (tagSelB 'A' i)).map renderRect =
      (ds.map renderRect).filter (fun x => tagOf x == tagStr 'A' i) := by
    rw [List.filter_map]
    congr 1
  have hmapQ : (ds.filter (tagSelB 'Q' i)).map renderRect =
      (ds.map renderRect).filter (fun x => tagOf x == tagStr 'Q' i) := by
    rw [List.filter_map]
    congr 1
  have hmapR : (ds.filter (tagSelB 'R' i)).map renderRect =
      (ds.map renderRect).filter (fun x => tagOf x == tagStr 'R' i) := by
    rw [List.filter_map]
    congr 1
  set L := ds.map renderRect with hL
  -- step 1: remove the A lines
  have step1 : pyRemoveAll L ((ds.filter (tagSelB 'A' i)).map renderRect) =
      L.filter (fun x => !(tagOf x == tagStr 'A' i)) := by
    rw [hmapA]
    exact foldl_erase_filter (fun x => tagOf x == tagStr 'A' i) L
  rw [step1]
  -- step 2: remove the Q lines
  have hQ2 : (ds.filter (tagSelB 'Q' i)).map renderRect =
      (L.filter (fun x => !(tagOf x == tagStr 'A' i))).filter
        (fun x => tagOf x == tagStr 'Q' i) := by
    rw [hmapQ, List.filter_filter]
    apply List.filter_congr
    intro x _
    by_cases hq : (tagOf x == tagStr 'Q' i) = true
    · rw [hq, tagPr_disjoint (by decide) i x hq]
      rfl
    · simp only [Bool.not_eq_true] at hq
      rw [hq]
      rfl
  have step2 : pyRemoveAll (L.filter (fun x => !(tagOf x == tagStr 'A' i)))
      ((ds.filter (tagSelB 'Q' i)).map renderRect) =
      L.filter (fun x => !(tagOf x == tagStr 'Q' i) &&
        !(tagOf x == tagStr 'A' i)) := by
    rw [hQ2]
    show ((List.filter (fun x => !(tagOf x == tagStr 'A' i)) L).filter
        (fun x => tagOf x == tagStr 'Q' i)).foldl (fun c x => c.erase x)
      (List.filter (fun x => !(tagOf x == tagStr 'A' i)) L) = _
    rw [foldl_erase_filter (fun x => tagOf x == tagStr 'Q' i)
      (List.filter (fun x => !(tagOf x == tagStr 'A' i)) L),
      List.filter_filter]
  rw [step2]
  -- step 3: remove the R lines
  have hR2 : (ds.filter (tagSelB 'R' i)).map renderRect =
      (L.filter (fun x => !(tagOf x == tagStr 'Q' i) &&
        !(tagOf x == tagStr 'A' i))).filter
        (fun x => tagOf x == tagStr 'R' i) := by
    rw [hmapR, List.filter_filter]
    apply List.filter_congr
    intro x _
    by_cases hr : (tagOf x == tagStr 'R' i) = true
    · rw [hr, tagPr_disjoint (by decide) i x hr,
        tagPr_disjoint (by decide) i x hr]
      rfl
    · simp only [Bool.not_eq_true] at hr
      rw [hr]
      rfl
  have step3 : pyRemoveAll (L.filter (fun x => !(tagOf x == tagStr 'Q' i) &&
      !(tagOf x == tagStr 'A' i)))
      ((ds.filter (tagSelB 'R' i)).map renderRect) =
      L.filter (fun x => !(tagOf x == tagStr 'R' i) &&
        (!(tagOf x == tagStr 'Q' i) && !(tagOf x == tagStr 'A' i))) := by
    rw [hR2]
    show ((List.filter (fun x => !(tagOf x == tagStr 'Q' i) &&
        !(tagOf x == tagStr 'A' i)) L).filter
        (fun x => tagOf x == tagStr 'R' i)).foldl (fun c x => c.erase x)
      (List.filter (fun x => !(tagOf x == tagStr 'Q' i) &&
        !(tagOf x == tagStr 'A' i)) L) = _
    rw [foldl_erase_filter (fun x => tagOf x == tagStr 'R' i)
      (List.filter (fun x => !(tagOf x == tagStr 'Q' i) &&
        !(tagOf x == tagStr 'A' i)) L), List.filter_filter]
  rw [step3, hL, List.filter_map]
  congr 1

theorem tagSelB_false_of_idx_ne {k2 : Char} {i : ℕ} {d : RectLine}
    (hok : rectLineOK d = true) (hne : d.idx ≠ i) :
    tagSelB k2 i d = false := by
  by_cases h : tagSelB k2 i d = true
  · obtain ⟨_, h2⟩ := (tagSelB_iff hok).mp h
    exact absurd h2 hne
  · simpa using h

theorem filter_notTag_eq {i j : ℕ} (hne : i ≠ j) (kind : Char)
    (ds : List RectLine) (hok : ∀ d ∈ ds, rectLineOK d = true) :
    (ds.filter (notTagAQR i)).filter (tagSelB kind j) =
      ds.filter (tagSelB kind j) := by
  rw [List.filter_filter]
  apply List.filter_congr
  intro d hd
  by_cases h : tagSelB kind j d = true
  · obtain ⟨_, h2⟩ := (tagSelB_iff (hok d hd)).mp h
    have hnot : notTagAQR i d = true := by
      rw [notTagAQR,
        tagSelB_false_of_idx_ne (hok d hd) (by omega),
        tagSelB_false_of_idx_ne (hok d hd) (by omega),
        tagSelB_false_of_idx_ne (hok d hd) (by omega)]
      rfl
    rw [h, hnot]
    rfl
  · have hf : tagSelB kind j d = false := by simpa using h
    rw [hf]
    rfl

theorem rectExtract_aux (arrayDim : ℤ) :
    ∀ (idxs : List ℕ) (ds : List RectLine),
    (∀ d ∈ ds, rectLineOK d = true) →
    List.Pairwise (fun a b => a.idx ≤ b.idx) ds →
    List.Pairwise (fun a b => a ≠ b) idxs →
    rectExtractAll arrayDim (ds.map renderRect) idxs =
      .ok (idxs.map (fun i =>
        ((ds.filter (tagSelB 'A' i)).map renderRect,
         (ds.filter (tagSelB 'R' i)).map renderRect,
         (ds.filter (tagSelB 'Q' i)).map renderRect))) := by
  intro idxs
  induction idxs with
  | nil => intro ds _ _ _; rfl
  | cons i rest ih =>
    intro ds hok hmono hnd
    show (rectIterE arrayDim i (ds.map renderRect) >>= _ :
      Except PyError _) = _
    rw [rectIterE_eq arrayDim i ds hok hmono]
    show (rectExtractAll arrayDim
      ((ds.filter (notTagAQR i)).map renderRect) rest >>= _ :
      Except PyError _) = _
    rw [ih (ds.filter (notTagAQR i))
      (fun d hd => hok d (List.mem_of_mem_filter hd))
      (hmono.sublist (List.filter_sublist _))
      (List.pairwise_cons.mp hnd).2]
    have htail : rest.map (fun j =>
        (((ds.filter (notTagAQR i)).filter (tagSelB 'A' j)).map renderRect,
         ((ds.filter (notTagAQR i)).filter (tagSelB 'R' j)).map renderRect,
         ((ds.filter (notTagAQR i)).filter (tagSelB 'Q' j)).map renderRect)) =
        rest.map (fun j =>
        ((ds.filter (tagSelB 'A' j)).map renderRect,
         (ds.filter (tagSelB 'R' j)).map renderRect,
         (ds.filter (tagSelB 'Q' j)).map renderRect)) := by
      apply List.map_congr_left
      intro j hj
      have hij : i ≠ j := (List.pairwise_cons.mp hnd).1 j hj
      rw [filter_notTag_eq hij 'A' ds hok, filter_notTag_eq hij 'R' ds hok,
        filter_notTag_eq hij 'Q' ds hok]
    rw [List.map_cons, htail]
    rfl

/-- C4: on any capture file in the rectangular format — every line a
well-formed record line and instance indices non-decreasing along the
file, as the producer writes them — the optimized extraction
(`itertools.takewhile` bounded scan per kind, plus removal of processed
lines from the in-memory content between instances) returns, for every
instance `i` and each kind `A`, `R`, `Q`, exactly the lines a
straightforward full scan of the whole original file selects by pre-colon
tag equality, in the same order; the decoded matrices and error results
coincide in turn, being functions of these selections. -/
theorem c4_rect_extraction_matches_full_scan (arrayDim : ℤ) (num : ℕ)
    (ds : List RectLine)
    (hok : ∀ d ∈ ds, rectLineOK d = true)
    (hmono : List.Pairwise (fun a b => a.idx ≤ b.idx) ds) :
    rectExtractAll arrayDim (ds.map renderRect) (List.range num) =
      .ok ((List.range num).map (fun i =>
        (selectTag (tagStr 'A' i) (ds.map renderRect),
         selectTag (tagStr 'R' i) (ds.map renderRect),
         selectTag (tagStr 'Q' i) (ds.map renderRect)))) := by
  rw [rectExtract_aux arrayDim (List.range num) ds hok hmono
    (List.nodup_range num)]
  congr 1
  apply List.map_congr_left
  intro i _
  have hcomp : ∀ kind : Char,
      (ds.filter (tagSelB kind i)).map renderRect =
        selectTag (tagStr kind i) (ds.map renderRect) := by
    intro kind
    rw [selectTag, List.filter_map]
    congr 1
  rw [hcomp 'A', hcomp 'R', hcomp 'Q']

/-- The rectangular capture lines of the C4 witness: two instances of a
small decomposition, rows in producer order. -/
def c4Lines : List RectLine :=
  [⟨'A', 0, 4, "1 2".data⟩, ⟨'A', 0, 4, "3 4".data⟩,
   ⟨'Q', 0, 4, "5 6".data⟩, ⟨'R', 0, 4, "7 8".data⟩,
   ⟨'A', 1, 4, "9 10".data⟩, ⟨'Q', 1, 4, "11 12".data⟩,
   ⟨'R', 1, 4, "13 14".data⟩]

/-- Witness for C4 on `c4Lines` with two instances and `array_dimension`
4. -/
theorem c4_rect_extraction_matches_full_scan_witness :
    ((∀ d ∈ c4Lines, rectLineOK d = true) ∧
      List.Pairwise (fun a b => a.idx ≤ b.idx) c4Lines) ∧
    rectExtractAll 4 (c4Lines.map renderRect) (List.range 2) =
      .ok ((List.range 2).map (fun i =>
        (selectTag (tagStr 'A' i) (c4Lines.map renderRect),
         selectTag (tagStr 'R' i) (c4Lines.map renderRect),
         selectTag (tagStr 'Q' i) (c4Lines.map renderRect)))) :=
  ⟨⟨by decide, by decide⟩,
   c4_rect_extraction_matches_full_scan 4 2 c4Lines (by decide) (by decide)⟩
